import Mathlib

/-!
# SelfUpdater: version model, manifest parser and self-replace protocol

A shallow embedding of `src/SelfUpdater/Version.hpp`, `src/SelfUpdater/Utils.hpp`
and `src/SelfUpdater/SelfUpdater.hpp`.

* `std::string` is a list of `Char` (one `Char` per byte), `std::wstring` a list
  of code units (`Nat`).
* `uint16_t` members are `Nat` fields; every constructor stores values reduced
  modulo `2^16`, and `ResVersion.InRange` states the range of the C++ type.
* The process-wide flag `ResVersion::s_msFormat` is an explicit `Bool` argument.
* C++ exceptions are the `Except` monad over `Exc`.
-/

namespace selfUpdater

/-- The C++ exceptions the embedded code can raise. -/
inductive Exc where
  | invalid_argument
  | out_of_range
  | filesystem_error
  | runtime_error
  deriving DecidableEq, Repr

deriving instance DecidableEq for Except

/-- A `std::wstring`: a list of code units. -/
abbrev WString := List Nat

/-- A wide string literal, as in C++ `L"..."`. -/
def L (s : String) : WString := s.toList.map Char.toNat

/-! ## The C++ standard library functions the code calls -/

namespace stdlib

/-- `isspace` in the "C" locale: space, `\t`, `\n`, `\v`, `\f`, `\r`. -/
def isspace (c : Char) : Bool :=
  c = ' ' || c = '\t' || c = '\n' || c = '\x0b' || c = '\x0c' || c = '\r'

/-- `isdigit`. -/
def isdigit (c : Char) : Bool := '0' ≤ c && c ≤ '9'

/-- Value of a run of decimal digits, most significant digit first. -/
def digitsValue (ds : List Char) : Nat :=
  ds.foldl (fun acc c => 10 * acc + (c.toNat - '0'.toNat)) 0

/-- `std::stoi(str)` (base 10, no position output): `strtol` skips leading white
space, reads an optional sign and the longest run of digits, and ignores what
follows; `std::invalid_argument` when there is no digit, `std::out_of_range` when
the value does not fit a 32-bit `int`. -/
def stoi (str : List Char) : Except Exc Int :=
  let s1 := str.dropWhile isspace
  let neg := s1.head? = some '-'
  let s2 := if s1.head? = some '-' ∨ s1.head? = some '+' then s1.tail else s1
  let ds := s2.takeWhile isdigit
  if ds = [] then .error .invalid_argument
  else
    let v : Int := if neg then -(digitsValue ds : Int) else (digitsValue ds : Int)
    if v < -2147483648 ∨ 2147483647 < v then .error .out_of_range
    else .ok v

/-- `static_cast<uint16_t>` of an `int`: reduction modulo `2^16`. -/
def toUInt16 (v : Int) : Nat := (v % 65536).toNat

/-- `std::format("{}", n)` for an unsigned integer: its decimal digits. -/
def fmt (n : Nat) : List Char := Nat.toDigits 10 n

end stdlib

/-! ## Utils.hpp -/

namespace utils

/-- `str.find(delimiter, start)` seen from `start`: the argument is the text from
`start` on, the result the offset of the first occurrence of `delimiter` in it
(`none` is `std::string::npos`). -/
def find (delimiter : List Char) : List Char → Option Nat
  | [] => if delimiter.isPrefixOf [] then some 0 else none
  | c :: cs =>
    if delimiter.isPrefixOf (c :: cs) then some 0
    else (find delimiter cs).map (· + 1)

/-- The loop of `Split` (Utils.hpp:160-166); `rest` is `str` from `start` on. With a
non-empty delimiter every round consumes at least one character, so `rest.length + 1`
rounds of fuel are enough (`splitLoop_fuel`); with an empty delimiter the C++ loop
does not end and the fuel runs out. -/
def splitLoop (delimiter : List Char) : Nat → List Char → List (List Char)
  | 0, _ => []
  | fuel + 1, rest =>
    match find delimiter rest with
    | none => [rest]
    | some e => rest.take e :: splitLoop delimiter fuel (rest.drop (e + delimiter.length))

/-- `Split(str, delimiter)` (Utils.hpp:155-168). The `char` overload
(Utils.hpp:170-173) is `Split str [c]`. -/
def Split (str delimiter : List Char) : List (List Char) :=
  splitLoop delimiter (str.length + 1) str

end utils

/-! ## Version.hpp -/

namespace version

/-- The data members of `class ResVersion` (Version.hpp:365-371). -/
structure ResVersion where
  m_major : Nat := 0
  m_minor : Nat := 0
  m_revision : Nat := 0
  m_build : Nat := 0
  m_valid : Bool := false
  deriving DecidableEq, Repr

namespace ResVersion

/-- The range of the four `uint16_t` members. -/
def InRange (v : ResVersion) : Prop :=
  v.m_major < 65536 ∧ v.m_minor < 65536 ∧ v.m_revision < 65536 ∧ v.m_build < 65536

instance (v : ResVersion) : Decidable v.InRange := by
  unfold InRange; infer_instance

/-- `ResVersion() = default` (Version.hpp:22). -/
def default : ResVersion := {}

/-- `ResVersion(major, minor, revision = 0, build = 0)` (Version.hpp:23-27); the
arguments are `uint16_t`. -/
def ofComponents (major minor : Nat) (revision : Nat := 0) (build : Nat := 0) : ResVersion :=
  { m_major := major % 65536, m_minor := minor % 65536, m_revision := revision % 65536,
    m_build := build % 65536, m_valid := true }

/-- `HIWORD` of Windows.h: bits 16..31 as a 16-bit word. -/
def HIWORD (l : Nat) : Nat := (l / 65536) % 65536

/-- `LOWORD` of Windows.h: bits 0..15 as a 16-bit word. -/
def LOWORD (l : Nat) : Nat := l % 65536

/-- `ResVersion(ms, ls)` (Version.hpp:29-37). -/
def ofPacked (s_msFormat : Bool) (ms ls : Nat) : ResVersion :=
  { m_major := HIWORD ms, m_minor := LOWORD ms,
    m_build := if s_msFormat then HIWORD ls else LOWORD ls,
    m_revision := if s_msFormat then LOWORD ls else HIWORD ls,
    m_valid := true }

/-- `std::swap(m_build, m_revision)` when `s_msFormat` is set (Version.hpp:65-66). -/
def swapIfMs (s_msFormat : Bool) (v : ResVersion) : ResVersion :=
  if s_msFormat then { v with m_build := v.m_revision, m_revision := v.m_build } else v

/-- `explicit ResVersion(const std::string& verStr)` (Version.hpp:39-67). An error is
the exception a `std::stoi` call raises out of the constructor. -/
def ofString (s_msFormat : Bool) (verStr : List Char) : Except Exc ResVersion :=
  match utils.Split verStr ['.'] with
  | [p0, p1, p2, p3] => do
    let major ← stdlib.stoi p0
    let minor ← stdlib.stoi p1
    let revision ← stdlib.stoi p2
    let build ← stdlib.stoi p3
    pure (swapIfMs s_msFormat
      { m_major := stdlib.toUInt16 major, m_minor := stdlib.toUInt16 minor,
        m_revision := stdlib.toUInt16 revision, m_build := stdlib.toUInt16 build,
        m_valid := true })
  | [p0, p1, p2] => do
    let major ← stdlib.stoi p0
    let minor ← stdlib.stoi p1
    let revision ← stdlib.stoi p2
    pure (swapIfMs s_msFormat
      { m_major := stdlib.toUInt16 major, m_minor := stdlib.toUInt16 minor,
        m_revision := stdlib.toUInt16 revision, m_build := 0, m_valid := true })
  | _ => pure { m_valid := false }

/-- `toString(lvl)` (Version.hpp:305-328); `ToString(lvl)` (Version.hpp:124-127) is
the same function. The last case is the `return toString();` after the `switch`, the
format of level 3, which no `lvl` reaches. -/
def toString (s_msFormat : Bool) (v : ResVersion) (lvl : Nat := 3) : Except Exc (List Char) :=
  if lvl < 1 ∨ lvl > 4 then .error .invalid_argument
  else match lvl with
    | 1 => .ok (stdlib.fmt v.m_major)
    | 2 => .ok (stdlib.fmt v.m_major ++ ['.'] ++ stdlib.fmt v.m_minor)
    | 3 => .ok (stdlib.fmt v.m_major ++ ['.'] ++ stdlib.fmt v.m_minor ++ ['.']
          ++ stdlib.fmt (if s_msFormat then v.m_build else v.m_revision))
    | 4 =>
      if s_msFormat then
        .ok (stdlib.fmt v.m_major ++ ['.'] ++ stdlib.fmt v.m_minor ++ ['.']
          ++ stdlib.fmt v.m_build ++ ['.'] ++ stdlib.fmt v.m_revision)
      else
        .ok (stdlib.fmt v.m_major ++ ['.'] ++ stdlib.fmt v.m_minor ++ ['.']
          ++ stdlib.fmt v.m_revision ++ " Build #".toList ++ stdlib.fmt v.m_build)
    | _ => .ok (stdlib.fmt v.m_major ++ ['.'] ++ stdlib.fmt v.m_minor ++ ['.']
          ++ stdlib.fmt (if s_msFormat then v.m_build else v.m_revision))

/-- The number of `.`-separated components of a version string: one more than the
number of dots. -/
def componentCount (verStr : List Char) : Nat := verStr.count '.' + 1

/-- A component that is a decimal number: a non-empty run of decimal digits. -/
def isDecimalNumber (component : List Char) : Bool :=
  !component.isEmpty && component.all stdlib.isdigit

/-- `IsValid()` and `operator bool()` (Version.hpp:69-77). -/
def IsValid (v : ResVersion) : Bool := v.m_valid

/-- `GetMajor()` (Version.hpp:99). -/
def GetMajor (v : ResVersion) : Nat := v.m_major

/-- `GetMinor()` (Version.hpp:104). -/
def GetMinor (v : ResVersion) : Nat := v.m_minor

/-- `GetRevision()` (Version.hpp:109). -/
def GetRevision (v : ResVersion) : Nat := v.m_revision

/-- `GetBuild()` (Version.hpp:114). -/
def GetBuild (v : ResVersion) : Nat := v.m_build

/-- `SetMajor(major)` (Version.hpp:79-82); the argument is a `uint16_t`. -/
def SetMajor (v : ResVersion) (major : Nat) : ResVersion :=
  { v with m_major := major % 65536 }

/-- `SetMinor(minor)` (Version.hpp:84-87). -/
def SetMinor (v : ResVersion) (minor : Nat) : ResVersion :=
  { v with m_minor := minor % 65536 }

/-- `SetRevision(revision)` (Version.hpp:89-92). -/
def SetRevision (v : ResVersion) (revision : Nat) : ResVersion :=
  { v with m_revision := revision % 65536 }

/-- `SetBuild(build)` (Version.hpp:94-97). -/
def SetBuild (v : ResVersion) (build : Nat) : ResVersion :=
  { v with m_build := build % 65536 }

/-- `operator>` (Version.hpp:129-165). -/
def gt (s_msFormat : Bool) (a other : ResVersion) : Bool :=
  if a.m_major > other.m_major then true
  else if a.m_major < other.m_major then false
  else if a.m_minor > other.m_minor then true
  else if a.m_minor < other.m_minor then false
  else if s_msFormat then
    if a.m_build > other.m_build then true
    else if a.m_build < other.m_build then false
    else if a.m_revision > other.m_revision then true
    else if a.m_revision < other.m_revision then false
    else false
  else
    if a.m_revision > other.m_revision then true
    else if a.m_revision < other.m_revision then false
    else if a.m_build > other.m_build then true
    else if a.m_build < other.m_build then false
    else false

/-- `operator<` (Version.hpp:167-203). -/
def lt (s_msFormat : Bool) (a other : ResVersion) : Bool :=
  if a.m_major < other.m_major then true
  else if a.m_major > other.m_major then false
  else if a.m_minor < other.m_minor then true
  else if a.m_minor > other.m_minor then false
  else if s_msFormat then
    if a.m_build < other.m_build then true
    else if a.m_build > other.m_build then false
    else if a.m_revision < other.m_revision then true
    else if a.m_revision > other.m_revision then false
    else false
  else
    if a.m_revision < other.m_revision then true
    else if a.m_revision > other.m_revision then false
    else if a.m_build < other.m_build then true
    else if a.m_build > other.m_build then false
    else false

/-- `operator==` (Version.hpp:205-211); the validity flag is not compared. -/
def eq (s_msFormat : Bool) (a other : ResVersion) : Bool :=
  if s_msFormat then
    a.m_major == other.m_major && a.m_minor == other.m_minor
      && a.m_build == other.m_build && a.m_revision == other.m_revision
  else
    a.m_major == other.m_major && a.m_minor == other.m_minor
      && a.m_revision == other.m_revision && a.m_build == other.m_build

/-- `operator!=` (Version.hpp:213-216). -/
def ne (s_msFormat : Bool) (a other : ResVersion) : Bool :=
  !(eq s_msFormat a other)

/-- `operator<=` (Version.hpp:218-221). -/
def le (s_msFormat : Bool) (a other : ResVersion) : Bool :=
  lt s_msFormat a other || eq s_msFormat a other

/-- `operator>=` (Version.hpp:223-226). -/
def ge (s_msFormat : Bool) (a other : ResVersion) : Bool :=
  gt s_msFormat a other || eq s_msFormat a other

/-- The comparison tuple named by the specification: `(major, minor, build, revision)`
in platform mode and `(major, minor, revision, build)` in semantic mode, ordered
lexicographically. -/
def specTuple (s_msFormat : Bool) (v : ResVersion) : Lex (Nat × Lex (Nat × Lex (Nat × Nat))) :=
  if s_msFormat then
    toLex (v.m_major, toLex (v.m_minor, toLex (v.m_build, v.m_revision)))
  else
    toLex (v.m_major, toLex (v.m_minor, toLex (v.m_revision, v.m_build)))

end ResVersion
end version

/-! ## SelfUpdater.hpp -/

namespace SelfUpdater

open version

/-- `TEMP_PREFIX` (SelfUpdater.hpp:27). -/
def TEMP_PREFIX : WString := L "_U_"

/-- `VerMap = std::map<std::string, ResVersion>` (SelfUpdater.hpp:29): the entries in
increasing key order, one per key. -/
abbrev VerMap := List (List Char × ResVersion)

/-- `VerMapW = std::map<std::wstring, ResVersion>` (SelfUpdater.hpp:30). -/
abbrev VerMapW := List (WString × ResVersion)

/-- `versions[k] = v` on a `std::map`: the entry of `k` is replaced, or inserted at its
place in key order. -/
def mapAssign {κ : Type} [LinearOrder κ] (k : κ) (v : ResVersion) :
    List (κ × ResVersion) → List (κ × ResVersion)
  | [] => [(k, v)]
  | (k', v') :: rest =>
    if k < k' then (k, v) :: (k', v') :: rest
    else if k = k' then (k, v) :: rest
    else (k', v') :: mapAssign k v rest

/-- The entry of key `k` in a `std::map`, if there is one. -/
def mapFind {κ : Type} [LinearOrder κ] (k : κ) : List (κ × ResVersion) → Option ResVersion
  | [] => none
  | (k', v') :: rest => if k = k' then some v' else mapFind k rest

/-- The body of the `for` loop of `parseVersionFileData` (SelfUpdater.hpp:401-411) for
one line `l`. An error is the exception the `ResVersion` constructor raises. -/
def parseLine (s_msFormat : Bool) (versions : VerMap) (l : List Char) : Except Exc VerMap :=
  match utils.Split l ['\t'] with
  | [name, verStr] => do
    let ver ← ResVersion.ofString s_msFormat verStr
    pure (if ver.IsValid then mapAssign name ver versions else versions)
  | _ => pure versions

/-- The `for` loop of `parseVersionFileData` over the lines (SelfUpdater.hpp:401-411). -/
def parseLines (s_msFormat : Bool) : List (List Char) → VerMap → Except Exc VerMap
  | [], versions => pure versions
  | l :: ls, versions => do
    let versions ← parseLine s_msFormat versions l
    parseLines s_msFormat ls versions

/-- `parseVersionFileData(data)` (SelfUpdater.hpp:396-414). -/
def parseVersionFileData (s_msFormat : Bool) (data : List Char) : Except Exc VerMap :=
  parseLines s_msFormat (utils.Split data ['\n']) []

/-- `parseVersionFileDataW(data)` (SelfUpdater.hpp:416-427); `s2ws` is `utils::ToUTF16`,
a wrapper of the Windows function `MultiByteToWideChar`, taken as a parameter. -/
def parseVersionFileDataW (s2ws : List Char → WString) (s_msFormat : Bool)
    (data : List Char) : Except Exc VerMapW := do
  let vv ← parseVersionFileData s_msFormat data
  pure (vv.foldl (fun versions e => mapAssign (s2ws e.1) e.2 versions) [])

/-- The version string of a two-field manifest line does not make the `ResVersion`
constructor raise (a line with another number of fields is not parsed at all). -/
def lineParses (s_msFormat : Bool) (l : List Char) : Bool :=
  match utils.Split l ['\t'] with
  | [_, verStr] =>
    match ResVersion.ofString s_msFormat verStr with
    | .ok _ => true
    | .error _ => false
  | _ => true

/-- The entry a manifest line stands for: the name and the Version of a line of two
tab-separated fields whose version string parses to a valid Version. -/
def lineEntry (s_msFormat : Bool) (l : List Char) : Option (List Char × ResVersion) :=
  match utils.Split l ['\t'] with
  | [name, verStr] =>
    match ResVersion.ofString s_msFormat verStr with
    | .ok ver => if ver.IsValid then some (name, ver) else none
    | .error _ => none
  | _ => none

/-- The Version of the last line, among `lines`, that stands for an entry of `name`. -/
def lastEntry (s_msFormat : Bool) (name : List Char) : List (List Char) → Option ResVersion
  | [] => none
  | l :: ls =>
    match lastEntry s_msFormat name ls with
    | some v => some v
    | none =>
      match lineEntry s_msFormat l with
      | some (n, v) => if n = name then some v else none
      | none => none

/-! ### The process and its environment

The operating system, the network, the user and a caller-supplied callback are an
oracle `Env`: every call the code makes to them is answered from the history of the
calls made so far, and is recorded as an `Event`. A function of the class takes the
history before the call and returns the events it adds, in the order they happen.
Console output is not recorded. -/

/-- `enum class UpdateType` (SelfUpdater.hpp:39-44); it also names the callback that
`checkForUpdates` stores in `m_callback` for each type (SelfUpdater.hpp:144-163). -/
inductive UpdateType where
  | Window
  | Console
  | Custom
  deriving DecidableEq, Repr

/-- How a call ends: it returns, an exception leaves it, or the process is ended by
`exit` inside it. -/
inductive Outcome (α : Type) where
  | returned (a : α)
  | raised (e : Exc)
  | exited (code : Nat)
  deriving DecidableEq, Repr

/-- The calls to the outside that the code makes, with their results. -/
inductive Event where
  /-- `downloader::Download(url, data)` into memory. -/
  | Download (url : WString) (res : Bool)
  /-- `downloader::Download(url, filePath)` into a file. -/
  | DownloadFile (url filePath : WString) (res : Bool)
  /-- `m_callback()`. -/
  | callback (type : UpdateType)
  /-- `MessageBox(...) == IDYES`. -/
  | MessageBox (yes : Bool)
  /-- `std::getline(std::cin, input)`. -/
  | getline (input : List Char)
  /-- `std::this_thread::sleep_for(std::chrono::milliseconds(ms))`. -/
  | sleep_for (ms : Nat)
  /-- `std::filesystem::exists(p)`. -/
  | fsExists (p : WString) (res : Except Exc Bool)
  /-- `std::filesystem::remove(p)`. -/
  | fsRemove (p : WString) (res : Except Exc Bool)
  /-- `std::filesystem::copy_file(src, dst)`, with or without `overwrite_existing`. -/
  | copyFile (src dst : WString) (overwrite : Bool) (res : Except Exc Bool)
  /-- `CreateProcess(fileName, ...)` in `exec`. -/
  | CreateProcess (fileName : WString) (res : Bool)
  /-- `exit(code)`. -/
  | exit (code : Nat)
  deriving DecidableEq, Repr

/-- A `std::filesystem::path` as the code uses it: the text and the two parts the
standard library splits it into. -/
structure ExePath where
  wstring : WString
  parent_path : WString
  filename : WString
  deriving DecidableEq, Repr

/-- The environment of the process. Every answer may depend on the history. -/
structure Env where
  /-- `utils::ToUTF16`. -/
  s2ws : List Char → WString
  /-- `utils::GetExecutablePath()`; it raises `std::runtime_error` on failure. -/
  GetExecutablePath : Except Exc ExePath
  /-- `dwFileVersionMS` and `dwFileVersionLS` of the executable's version resource, when
  `loadVersionInfo` finds one. -/
  fileVersion : Option (Nat × Nat)
  /-- `std::filesystem::temp_directory_path().wstring()`. -/
  temp_directory_path : WString
  /-- The bytes `Download(url, data)` fetches; `none` when it returns false. -/
  Download : List Event → WString → Option (List Char)
  DownloadFile : List Event → WString → WString → Bool
  MessageBoxYes : List Event → Bool
  getline : List Event → List Char
  /-- The caller-supplied callback of `UpdateType::Custom`. -/
  customCallback : List Event → Outcome Unit
  fsExists : List Event → WString → Except Exc Bool
  fsRemove : List Event → WString → Except Exc Bool
  copyFile : List Event → WString → WString → Bool → Except Exc Bool
  CreateProcess : List Event → WString → Bool

/-- The static data members: `ResVersion::s_msFormat` (Version.hpp:19), `s_baseUrl` and
`s_versionFilename` (SelfUpdater.hpp:33-34). -/
structure Statics where
  s_msFormat : Bool := false
  s_baseUrl : WString := L ""
  s_versionFilename : WString := L "versions.txt"
  deriving DecidableEq, Repr

/-- The data members of `class SelfUpdater` (SelfUpdater.hpp:429-441), `m_updateThrdRes`
apart. `m_callback` is `none` for an empty `std::function`. -/
structure State where
  m_version : ResVersion := {}
  m_exeName : WString := L ""
  m_exePath : WString := L ""
  m_fullExePath : WString := L ""
  m_newExePath : WString := L ""
  m_tempExePath : WString := L ""
  m_callback : Option UpdateType := none
  m_isTemp : Bool := false
  deriving DecidableEq, Repr

/-- What a member function leaves behind: the object, the events of the call and how
the call ended. -/
structure Result (α : Type) where
  self : State
  events : List Event
  outcome : Outcome α

/-- `std::filesystem::path(p).filename().wstring()`: the text after the last directory
separator. -/
def filename (p : WString) : WString :=
  (p.reverse.takeWhile (fun c => c ≠ 92 ∧ c ≠ 47)).reverse

/-- `doUpdate()` (SelfUpdater.hpp:207-242), with `exec` (SelfUpdater.hpp:372-394)
inlined as its `CreateProcess` call. -/
def doUpdate (env : Env) (st : Statics) (self : State) (h : List Event) : Result Bool :=
  let url := st.s_baseUrl ++ L "/" ++ self.m_exeName
  let tempExePath := env.temp_directory_path ++ L "\\" ++ TEMP_PREFIX ++ self.m_exeName
  let self := { self with m_tempExePath := tempExePath }
  let res := env.DownloadFile h url tempExePath
  let e1 := [Event.DownloadFile url tempExePath res]
  if res = false then ⟨self, e1, .returned false⟩
  else
    let newExePath := self.m_exePath ++ L "\\" ++ filename tempExePath
    let self := { self with m_newExePath := newExePath }
    match env.copyFile (h ++ e1) tempExePath newExePath true with
    | .error e => ⟨self, e1 ++ [.copyFile tempExePath newExePath true (.error e)], .raised e⟩
    | .ok copied =>
      let e2 := e1 ++ [.copyFile tempExePath newExePath true (.ok copied)]
      if copied = false then ⟨self, e2, .returned false⟩
      else if env.CreateProcess (h ++ e2) newExePath then
        ⟨self, e2 ++ [.CreateProcess newExePath true, .exit 0], .exited 0⟩
      else
        ⟨self, e2 ++ [.CreateProcess newExePath false], .returned false⟩

/-- `cleanUp()` (SelfUpdater.hpp:244-248). -/
def cleanUp (env : Env) (self : State) (h : List Event) : Result Unit :=
  if self.m_tempExePath = [] then ⟨self, [], .returned ()⟩
  else
    match env.fsExists h self.m_tempExePath with
    | .error e => ⟨self, [.fsExists self.m_tempExePath (.error e)], .raised e⟩
    | .ok found =>
      let e1 := [Event.fsExists self.m_tempExePath (.ok found)]
      if found = false then ⟨self, e1, .returned ()⟩
      else
        match env.fsRemove (h ++ e1) self.m_tempExePath with
        | .error e => ⟨self, e1 ++ [.fsRemove self.m_tempExePath (.error e)], .raised e⟩
        | .ok r => ⟨self, e1 ++ [.fsRemove self.m_tempExePath (.ok r)], .returned ()⟩

/-- The value of a call whose result the caller discards. -/
def Outcome.discard {α : Type} : Outcome α → Outcome Unit
  | .returned _ => .returned ()
  | .raised e => .raised e
  | .exited c => .exited c

/-- `UpdateAvailableWindow()` (SelfUpdater.hpp:99-112). -/
def UpdateAvailableWindow (env : Env) (st : Statics) (self : State) (h : List Event) :
    Result Unit :=
  let yes := env.MessageBoxYes h
  let e1 := [Event.MessageBox yes]
  if yes then
    let r := doUpdate env st self (h ++ e1)
    ⟨r.self, e1 ++ r.events, r.outcome.discard⟩
  else
    let r := cleanUp env self (h ++ e1)
    ⟨r.self, e1 ++ r.events, r.outcome⟩

/-- `UpdateAvailableConsole()` (SelfUpdater.hpp:114-129). -/
def UpdateAvailableConsole (env : Env) (st : Statics) (self : State) (h : List Event) :
    Result Unit :=
  let input := env.getline h
  let e1 := [Event.getline input]
  if input = [] ∨ input.head? = some 'y' ∨ input.head? = some 'Y' then
    let r := doUpdate env st self (h ++ e1)
    ⟨r.self, e1 ++ r.events, r.outcome.discard⟩
  else
    let r := cleanUp env self (h ++ e1)
    ⟨r.self, e1 ++ r.events, r.outcome⟩

/-- The call `m_callback()` for the callback that `checkForUpdates` stored. -/
def invokeCallback (env : Env) (st : Statics) (self : State) (h : List Event) :
    UpdateType → Result Unit
  | .Window => UpdateAvailableWindow env st self h
  | .Console => UpdateAvailableConsole env st self h
  | .Custom => ⟨self, [], env.customCallback h⟩

/-- The loop `for (const auto& [name, ver] : versions) if (name == m_exeName) newVer = ver;`
(SelfUpdater.hpp:266-272). -/
def findNewVer (versions : VerMapW) (m_exeName : WString) : ResVersion :=
  versions.foldl (fun newVer e => if e.1 = m_exeName then e.2 else newVer) ResVersion.default

/-- `checkForUpdatesThrd()` (SelfUpdater.hpp:250-293). -/
def checkForUpdatesThrd (env : Env) (st : Statics) (self : State) (h : List Event) :
    Result Bool :=
  if self.m_isTemp then ⟨self, [], .returned true⟩
  else
    let url := st.s_baseUrl ++ L "/" ++ st.s_versionFilename
    match env.Download h url with
    | none => ⟨self, [.Download url false], .returned false⟩
    | some versionData =>
      let e1 := [Event.Download url true]
      match parseVersionFileDataW env.s2ws st.s_msFormat versionData with
      | .error e => ⟨self, e1, .raised e⟩
      | .ok versions =>
        let newVer := findNewVer versions self.m_exeName
        if newVer.IsValid = false then ⟨self, e1, .returned false⟩
        else if ResVersion.le st.s_msFormat newVer self.m_version then
          ⟨self, e1, .returned false⟩
        else
          match self.m_callback with
          | none => ⟨self, e1, .returned true⟩
          | some cb =>
            let e2 := e1 ++ [.callback cb]
            let r := invokeCallback env st self (h ++ e2) cb
            ⟨r.self, e2 ++ r.events,
              match r.outcome with
              | .returned _ => .returned true
              | .raised e => .raised e
              | .exited c => .exited c⟩

/-- The retry loop of `replaceTempVersion` (SelfUpdater.hpp:325-335) with `n` rounds
left; the second component is the exception that left the loop, if one did. -/
def removeLoop (env : Env) (realPath : WString) :
    Nat → List Event → List Event × Option Exc
  | 0, _ => ([], none)
  | n + 1, h =>
    match env.fsExists h realPath with
    | .error e => ([.fsExists realPath (.error e)], some e)
    | .ok found =>
      let e1 := [Event.fsExists realPath (.ok found)]
      if found = false then
        let r := removeLoop env realPath n (h ++ e1)
        (e1 ++ r.1, r.2)
      else
        match env.fsRemove (h ++ e1) realPath with
        | .error e => (e1 ++ [.fsRemove realPath (.error e)], some e)
        | .ok removed =>
          let e2 := e1 ++ [.fsRemove realPath (.ok removed)]
            ++ (if removed = false then [.sleep_for 100] else [])
          let r := removeLoop env realPath n (h ++ e2)
          (e2 ++ r.1, r.2)

/-- The local `realPath` of `replaceTempVersion` (SelfUpdater.hpp:314-315): the
directory of the executable, a backslash, and its name without the first
`TEMP_PREFIX.size()` code units. -/
def realPath (self : State) : WString :=
  self.m_exePath ++ L "\\" ++ self.m_exeName.drop (List.length TEMP_PREFIX)

/-- `replaceTempVersion()` (SelfUpdater.hpp:308-370). The test
`m_exeName.find(TEMP_PREFIX) == 0` is that the prefix starts the name. -/
def replaceTempVersion (env : Env) (self : State) (h : List Event) : Result Bool :=
  if List.isPrefixOf TEMP_PREFIX self.m_exeName then
    let realPath := realPath self
    let self := { self with m_isTemp := true }
    let e1 := [Event.sleep_for 100]
    match removeLoop env realPath 5 (h ++ e1) with
    | (el, some _) => ⟨self, e1 ++ el, .returned false⟩
    | (el, none) =>
      let e2 := e1 ++ el
      match env.copyFile (h ++ e2) self.m_fullExePath realPath false with
      | .error e =>
        ⟨self, e2 ++ [.copyFile self.m_fullExePath realPath false (.error e)], .raised e⟩
      | .ok copied =>
        let e3 := e2 ++ [.copyFile self.m_fullExePath realPath false (.ok copied)]
        if copied = false then ⟨self, e3, .returned false⟩
        else if env.CreateProcess (h ++ e3) realPath then
          ⟨self, e3 ++ [.CreateProcess realPath true, .exit 0], .exited 0⟩
        else
          ⟨self, e3 ++ [.CreateProcess realPath false], .returned false⟩
  else
    let oldTemp := self.m_exePath ++ L "\\_U_" ++ self.m_exeName
    match env.fsExists h oldTemp with
    | .error e => ⟨self, [.fsExists oldTemp (.error e)], .raised e⟩
    | .ok found =>
      let e1 := [Event.fsExists oldTemp (.ok found)]
      if found = false then ⟨self, e1, .returned true⟩
      else
        match env.fsRemove (h ++ e1) oldTemp with
        | .error e => ⟨self, e1 ++ [.fsRemove oldTemp (.error e)], .raised e⟩
        | .ok r => ⟨self, e1 ++ [.fsRemove oldTemp (.ok r)], .returned true⟩

/-- `loadVersionInfo` and `GetVersionInfo()` (Version.hpp:288-302, 330-363): the packed
constructor on the version resource, or the zeroed, invalid Version without one. -/
def GetVersionInfo (env : Env) (st : Statics) : ResVersion :=
  match env.fileVersion with
  | some (ms, ls) => ResVersion.ofPacked st.s_msFormat ms ls
  | none => {}

/-- `init()` (SelfUpdater.hpp:295-306), the body of the constructor; the result of
`replaceTempVersion()` is not used. -/
def init (env : Env) (st : Statics) (h : List Event) : Result Unit :=
  match env.GetExecutablePath with
  | .error e => ⟨{}, [], .raised e⟩
  | .ok p =>
    let self : State :=
      { m_fullExePath := p.wstring, m_exePath := p.parent_path, m_exeName := p.filename,
        m_version := GetVersionInfo env st }
    let r := replaceTempVersion env self h
    ⟨r.self, r.events, r.outcome.discard⟩

/-- The object as `init` has it when it calls `replaceTempVersion()`
(SelfUpdater.hpp:298-304). -/
def initialState (env : Env) (st : Statics) (p : ExePath) : State :=
  { m_fullExePath := p.wstring, m_exePath := p.parent_path, m_exeName := p.filename,
    m_version := GetVersionInfo env st }

/-- The path of a leftover staged file, `m_exePath\_U_m_exeName`, that the launcher
branch of `replaceTempVersion` tests and removes (SelfUpdater.hpp:363-366). -/
def leftoverPath (self : State) : WString :=
  self.m_exePath ++ L "\\_U_" ++ self.m_exeName

/-- The local `url` of `checkForUpdatesThrd` (SelfUpdater.hpp:257). -/
def manifestUrl (st : Statics) : WString :=
  st.s_baseUrl ++ L "/" ++ st.s_versionFilename

/-- The file name of the staged copy of the executable `name`: the reserved prefix
followed by `name` (SelfUpdater.hpp:210). -/
def stagedName (name : WString) : WString :=
  TEMP_PREFIX ++ name

/-- The text is a file name: it holds no directory separator (backslash, 92, or
slash, 47). -/
def isFileName (name : WString) : Prop :=
  ∀ c ∈ name, c ≠ 92 ∧ c ≠ 47

instance (name : WString) : Decidable (isFileName name) := by
  unfold isFileName; infer_instance

/-- The local `url` of `doUpdate` (SelfUpdater.hpp:209). -/
def updateUrl (st : Statics) (self : State) : WString :=
  st.s_baseUrl ++ L "/" ++ self.m_exeName

/-- The value `doUpdate` gives `m_tempExePath` (SelfUpdater.hpp:210). -/
def tempExePath (env : Env) (self : State) : WString :=
  env.temp_directory_path ++ L "\\" ++ TEMP_PREFIX ++ self.m_exeName

/-- The value `doUpdate` gives `m_newExePath` (SelfUpdater.hpp:220), the path the new
binary is staged at. -/
def newExePath (env : Env) (self : State) : WString :=
  self.m_exePath ++ L "\\" ++ filename (tempExePath env self)

/-- The answer of the environment to the download of `doUpdate` called after `h`. -/
def downloadAnswer (env : Env) (st : Statics) (self : State) (h : List Event) : Bool :=
  env.DownloadFile h (updateUrl st self) (tempExePath env self)

/-- The answer of the environment to the copy of `doUpdate`, made after a download that
succeeded. -/
def copyAnswer (env : Env) (st : Statics) (self : State) (h : List Event) :
    Except Exc Bool :=
  env.copyFile (h ++ [.DownloadFile (updateUrl st self) (tempExePath env self) true])
    (tempExePath env self) (newExePath env self) true

/-- The answer of the environment to the process start of `doUpdate`, made after a
download and a copy that succeeded. -/
def launchAnswer (env : Env) (st : Statics) (self : State) (h : List Event) : Bool :=
  env.CreateProcess
    (h ++ ([.DownloadFile (updateUrl st self) (tempExePath env self) true]
      ++ [.copyFile (tempExePath env self) (newExePath env self) true (.ok true)]))
    (newExePath env self)

/-! ### Kinds of events -/

/-- The event is a call of the notification callback. -/
def Event.isCallback : Event → Bool
  | .callback _ => true
  | _ => false

/-- The event is a fetch of the manifest. -/
def Event.isDownload : Event → Bool
  | .Download _ _ => true
  | _ => false

/-- The event is a `copy_file` call. -/
def Event.isCopyFile : Event → Bool
  | .copyFile _ _ _ _ => true
  | _ => false

/-- The event is a `CreateProcess` call. -/
def Event.isCreateProcess : Event → Bool
  | .CreateProcess _ _ => true
  | _ => false

/-- The event is a call of `exit`. -/
def Event.isExit : Event → Bool
  | .exit _ => true
  | _ => false

/-- The event belongs to the retry loop on `realPath`: an existence test or a removal of
`realPath`, or a pause. -/
def Event.isRetryStep (realPath : WString) : Event → Bool
  | .fsExists p _ => p = realPath
  | .fsRemove p _ => p = realPath
  | .sleep_for _ => true
  | _ => false

/-! ### Concrete processes and environments -/

/-- A launcher process: `C:\app\tool.exe`, running version 1.2.3.4. -/
def launcherState : State :=
  { m_version := ⟨1, 2, 3, 4, true⟩, m_exeName := L "tool.exe", m_exePath := L "C:\\app",
    m_fullExePath := L "C:\\app\\tool.exe" }

/-- A staged process before `replaceTempVersion`: `C:\app\_U_tool.exe`. -/
def stagedState : State :=
  { m_version := ⟨1, 2, 4, 0, true⟩, m_exeName := L "_U_tool.exe", m_exePath := L "C:\\app",
    m_fullExePath := L "C:\\app\\_U_tool.exe" }

/-- An environment in which the manifest is `manifest`, the user accepts the update and
every file operation and process start succeeds; `C:\app\tool.exe` exists until it is
removed. -/
def acceptingEnv (manifest : List Char) : Env where
  s2ws := fun s => s.map Char.toNat
  GetExecutablePath := .ok ⟨L "C:\\app\\tool.exe", L "C:\\app", L "tool.exe"⟩
  fileVersion := some (65538, 196612)
  temp_directory_path := L "C:\\Temp"
  Download := fun _ _ => some manifest
  DownloadFile := fun _ _ _ => true
  MessageBoxYes := fun _ => true
  getline := fun _ => "y".toList
  customCallback := fun _ => .returned ()
  fsExists := fun h p =>
    .ok (decide (p = L "C:\\app\\tool.exe" ∧ Event.fsRemove p (.ok true) ∉ h))
  fsRemove := fun _ _ => .ok true
  copyFile := fun _ _ _ _ => .ok true
  CreateProcess := fun _ _ => true

/-- An environment in which the manifest cannot be fetched. -/
def offlineEnv : Env :=
  { acceptingEnv [] with Download := fun _ _ => none }

/-- An environment of a launcher process in which the download succeeds and the copy to
the staged path raises `filesystem_error`. -/
def copyRaisesEnv : Env :=
  { acceptingEnv [] with copyFile := fun _ _ _ _ => .error .filesystem_error }

/-- An environment of the launcher process `C:\app\tool.exe` next to which a leftover
`C:\app\_U_tool.exe` exists and can be removed. -/
def leftoverEnv : Env :=
  { acceptingEnv "tool.exe\t1.2.3.4".toList with
    fsExists := fun h p =>
      .ok (decide (p = L "C:\\app\\_U_tool.exe" ∧ Event.fsRemove p (.ok true) ∉ h)) }

/-- An environment of the launcher process `C:\app\tool.exe` whose leftover
`C:\app\_U_tool.exe` exists and is locked: `remove` raises `filesystem_error`. -/
def lockedLeftoverEnv : Env :=
  { acceptingEnv [] with
    fsExists := fun _ _ => .ok true
    fsRemove := fun _ _ => .error .filesystem_error }

end SelfUpdater

open version

/-! ## Theorems -/

open stdlib utils SelfUpdater

/-! ### Lemmas on `Split`, `std::format` and `std::stoi` -/

theorem find_single_of_not_mem (d : Char) : ∀ (a : List Char), d ∉ a → find [d] a = none
  | [], _ => by simp [find, List.isPrefixOf]
  | c :: cs, h => by
    have hc : d ≠ c := fun e => h (by simp [e])
    have hcs : d ∉ cs := fun e => h (by simp [e])
    simp [find, List.isPrefixOf, hc, find_single_of_not_mem d cs hcs]

theorem find_single_append (d : Char) (r : List Char) :
    ∀ (a : List Char), d ∉ a → find [d] (a ++ d :: r) = some a.length
  | [], _ => by simp [find, List.isPrefixOf]
  | c :: cs, h => by
    have hc : d ≠ c := fun e => h (by simp [e])
    have hcs : d ∉ cs := fun e => h (by simp [e])
    simp [find, List.isPrefixOf, hc, find_single_append d r cs hcs]

theorem find_some_le (delimiter : List Char) :
    ∀ (s : List Char) (e : Nat), find delimiter s = some e → e + delimiter.length ≤ s.length
  | [], e, h => by
    cases delimiter with
    | nil => simp [find] at h; simp [← h]
    | cons x xs => simp [find, List.isPrefixOf] at h
  | c :: cs, e, h => by
    unfold find at h
    split at h
    · rename_i hp
      have := List.IsPrefix.length_le (List.isPrefixOf_iff_prefix.mp hp)
      simp at h; subst h; simpa using this
    · cases hf : find delimiter cs with
      | none => simp [hf] at h
      | some k =>
        simp [hf] at h
        have := find_some_le delimiter cs k hf
        subst h; simp; omega

theorem splitLoop_fuel (delimiter : List Char) (hd : delimiter ≠ []) :
    ∀ (n m : Nat) (s : List Char), s.length < n → s.length < m →
      splitLoop delimiter n s = splitLoop delimiter m s
  | 0, _, _, h, _ => by omega
  | _, 0, _, _, h => by omega
  | n + 1, m + 1, s, hn, hm => by
    unfold splitLoop
    cases hf : find delimiter s with
    | none => rfl
    | some e =>
      have hle := find_some_le delimiter s e hf
      have hpos : 0 < delimiter.length := List.length_pos.mpr hd
      have hlen : (s.drop (e + delimiter.length)).length < s.length := by
        simp; omega
      simp only
      rw [splitLoop_fuel delimiter hd n m _ (by omega) (by omega)]

theorem Split_of_not_mem (d : Char) (a : List Char) (h : d ∉ a) : Split a [d] = [a] := by
  simp [Split, splitLoop, find_single_of_not_mem d a h]

theorem Split_append (d : Char) (a r : List Char) (h : d ∉ a) :
    Split (a ++ d :: r) [d] = a :: Split r [d] := by
  unfold Split
  rw [splitLoop]
  simp only [find_single_append d r a h, List.length_singleton]
  rw [List.take_left' rfl]
  have : List.drop (a.length + 1) (a ++ d :: r) = r := by
    rw [show a ++ d :: r = (a ++ [d]) ++ r by simp]
    exact List.drop_left' (by simp)
  rw [this]
  congr 1
  exact splitLoop_fuel [d] (by simp) _ _ _ (by simp; omega) (by simp)

theorem first_occurrence (d : Char) :
    ∀ (s : List Char), d ∉ s ∨ ∃ a r, s = a ++ d :: r ∧ d ∉ a
  | [] => by simp
  | c :: cs => by
    by_cases hc : d = c
    · right; exact ⟨[], cs, by simp [hc], by simp⟩
    · rcases first_occurrence d cs with h | ⟨a, r, h1, h2⟩
      · left; simp [hc, h]
      · right; exact ⟨c :: a, r, by simp [h1], by simp [hc, h2]⟩

theorem Split_length_aux (d : Char) :
    ∀ (n : Nat) (s : List Char), s.length ≤ n → (Split s [d]).length = s.count d + 1
  | n, s, hn => by
    rcases first_occurrence d s with h | ⟨a, r, h1, h2⟩
    · rw [Split_of_not_mem d s h, List.count_eq_zero_of_not_mem h]; rfl
    · subst h1
      rw [Split_append d a r h2]
      simp only [List.length_cons, List.count_append, List.count_cons_self]
      have hr : r.length ≤ n - 1 := by simp at hn; omega
      rw [Split_length_aux d (n - 1) r hr, List.count_eq_zero_of_not_mem h2]
      omega
termination_by n => n
decreasing_by simp at hn; omega

theorem Split_length (d : Char) (s : List Char) :
    (Split s [d]).length = s.count d + 1 :=
  Split_length_aux d s.length s (Nat.le_refl _)

theorem digitChar_isdigit (k : Nat) (hk : k < 10) : isdigit (Nat.digitChar k) = true := by
  interval_cases k <;> decide

theorem digitChar_value (k : Nat) (hk : k < 10) :
    (Nat.digitChar k).toNat - '0'.toNat = k := by
  interval_cases k <;> decide

theorem isdigit_not_isspace (c : Char) (h : isdigit c = true) : isspace c = false := by
  by_contra hs
  simp only [isspace, Bool.or_eq_true, decide_eq_true_eq, Bool.not_eq_false] at hs
  rcases hs with ((((rfl | rfl) | rfl) | rfl) | rfl) | rfl <;> exact absurd h (by decide)

theorem isdigit_ne_minus (c : Char) (h : isdigit c = true) : c ≠ '-' := by
  rintro rfl; exact absurd h (by decide)

theorem isdigit_ne_plus (c : Char) (h : isdigit c = true) : c ≠ '+' := by
  rintro rfl; exact absurd h (by decide)

theorem isdigit_ne_dot (c : Char) (h : isdigit c = true) : c ≠ '.' := by
  rintro rfl; exact absurd h (by decide)

theorem toDigitsCore_spec :
    ∀ (fuel n : Nat) (acc : List Char), n < fuel →
      ∃ ds, Nat.toDigitsCore 10 fuel n acc = ds ++ acc ∧ ds ≠ [] ∧
        (∀ c ∈ ds, isdigit c = true) ∧
        ∀ a0, ds.foldl (fun acc c => 10 * acc + (c.toNat - '0'.toNat)) a0
          = a0 * 10 ^ ds.length + n
  | 0, _, _, h => by omega
  | fuel + 1, n, acc, h => by
    have hmod : n % 10 < 10 := Nat.mod_lt _ (by decide)
    unfold Nat.toDigitsCore
    by_cases h0 : n / 10 = 0
    · refine ⟨[Nat.digitChar (n % 10)], by simp [h0], by simp, ?_, ?_⟩
      · intro c hc
        simp at hc; subst hc
        exact digitChar_isdigit _ hmod
      · intro a0
        simp only [List.foldl_cons, List.foldl_nil, List.length_singleton, pow_one]
        rw [digitChar_value _ hmod]
        omega
    · obtain ⟨ds, h1, _, h3, h4⟩ :=
        toDigitsCore_spec fuel (n / 10) (Nat.digitChar (n % 10) :: acc) (by omega)
      refine ⟨ds ++ [Nat.digitChar (n % 10)], by simp [h0, h1], by simp, ?_, ?_⟩
      · intro c hc
        rcases List.mem_append.mp hc with hc | hc
        · exact h3 c hc
        · simp at hc; subst hc
          exact digitChar_isdigit _ hmod
      · intro a0
        simp only [List.foldl_append, List.foldl_cons, List.foldl_nil, h4,
          List.length_append, List.length_singleton]
        rw [digitChar_value _ hmod, pow_succ]
        have := Nat.div_add_mod n 10
        nlinarith [this]

theorem fmt_spec (n : Nat) :
    fmt n ≠ [] ∧ (∀ c ∈ fmt n, isdigit c = true) ∧ digitsValue (fmt n) = n := by
  obtain ⟨ds, h1, h2, h3, h4⟩ := toDigitsCore_spec (n + 1) n [] (Nat.lt_succ_self n)
  have hfmt : fmt n = ds := by simp [fmt, Nat.toDigits, h1]
  rw [hfmt]
  exact ⟨h2, h3, by simpa [digitsValue] using h4 0⟩

theorem fmt_no_dot (n : Nat) : '.' ∉ fmt n := fun h =>
  isdigit_ne_dot _ ((fmt_spec n).2.1 _ h) rfl

theorem takeWhile_isdigit_append (ds rest : List Char) (hds : ∀ c ∈ ds, isdigit c = true)
    (hrest : ∀ c, rest.head? = some c → isdigit c = false) :
    (ds ++ rest).takeWhile isdigit = ds := by
  induction ds with
  | nil =>
    cases rest with
    | nil => rfl
    | cons c cs => simp [List.takeWhile, hrest c rfl]
  | cons c cs ih =>
    have hc : isdigit c = true := hds c (by simp)
    simp [List.takeWhile, hc, ih (fun x hx => hds x (by simp [hx]))]

theorem stoi_digits (ds rest : List Char) (hne : ds ≠ [])
    (hds : ∀ c ∈ ds, isdigit c = true)
    (hrest : ∀ c, rest.head? = some c → isdigit c = false)
    (hv : digitsValue ds ≤ 2147483647) :
    stoi (ds ++ rest) = .ok (digitsValue ds : Int) := by
  cases ds with
  | nil => exact absurd rfl hne
  | cons c cs =>
    have hc : isdigit c = true := hds c (by simp)
    have h1 : ((c :: cs) ++ rest).dropWhile isspace = (c :: cs) ++ rest := by
      simp [List.dropWhile, isdigit_not_isspace c hc]
    have h2 : ((c :: cs) ++ rest).takeWhile isdigit = c :: cs :=
      takeWhile_isdigit_append _ _ hds hrest
    unfold stoi
    simp only [h1]
    simp only [List.cons_append, List.head?_cons, Option.some.injEq, isdigit_ne_minus c hc,
      isdigit_ne_plus c hc, or_self, if_false, decide_False]
    rw [← List.cons_append, h2]
    simp
    omega

theorem stoi_fmt (n : Nat) (rest : List Char) (hn : n ≤ 2147483647)
    (hrest : ∀ c, rest.head? = some c → isdigit c = false) :
    stoi (fmt n ++ rest) = .ok (n : Int) := by
  obtain ⟨h1, h2, h3⟩ := fmt_spec n
  have := stoi_digits (fmt n) rest h1 h2 hrest (by omega)
  rw [this, h3]

theorem toUInt16_natCast (n : Nat) (hn : n < 65536) : toUInt16 (n : Int) = n := by
  unfold toUInt16
  omega

theorem Split_four (a b c d : List Char) (ha : '.' ∉ a) (hb : '.' ∉ b) (hc : '.' ∉ c)
    (hd : '.' ∉ d) :
    Split (a ++ ['.'] ++ b ++ ['.'] ++ c ++ ['.'] ++ d) ['.'] = [a, b, c, d] := by
  have e : a ++ ['.'] ++ b ++ ['.'] ++ c ++ ['.'] ++ d
      = a ++ '.' :: (b ++ '.' :: (c ++ '.' :: d)) := by simp
  rw [e, Split_append _ _ _ ha, Split_append _ _ _ hb, Split_append _ _ _ hc,
    Split_of_not_mem _ _ hd]

theorem Split_three (a b c : List Char) (ha : '.' ∉ a) (hb : '.' ∉ b) (hc : '.' ∉ c) :
    Split (a ++ ['.'] ++ b ++ ['.'] ++ c) ['.'] = [a, b, c] := by
  have e : a ++ ['.'] ++ b ++ ['.'] ++ c = a ++ '.' :: (b ++ '.' :: c) := by simp
  rw [e, Split_append _ _ _ ha, Split_append _ _ _ hb, Split_of_not_mem _ _ hc]

theorem stoi_fmt_nil (n : Nat) (hn : n < 65536) : stoi (fmt n) = .ok (n : Int) := by
  have := stoi_fmt n [] (by omega) (by simp)
  simpa using this


/-! ### Lemmas on the manifest parser -/

theorem mapFind_mapAssign_self {κ : Type} [LinearOrder κ] (k : κ) (v : ResVersion) :
    ∀ m : List (κ × ResVersion), mapFind k (mapAssign k v m) = some v
  | [] => by simp [mapAssign, mapFind]
  | (k', v') :: rest => by
    unfold mapAssign
    split_ifs with h1 h2
    · simp [mapFind]
    · simp [mapFind]
    · simp [mapFind, h2, mapFind_mapAssign_self k v rest]

theorem mapFind_mapAssign_ne {κ : Type} [LinearOrder κ] (k k' : κ) (v : ResVersion)
    (h : k' ≠ k) :
    ∀ m : List (κ × ResVersion), mapFind k' (mapAssign k v m) = mapFind k' m
  | [] => by simp [mapAssign, mapFind, h]
  | (k'', v'') :: rest => by
    unfold mapAssign
    split_ifs with h1 h2
    · simp [mapFind, h]
    · subst h2; simp [mapFind, h]
    · simp [mapFind, mapFind_mapAssign_ne k k' v h rest]

theorem parseLine_of_lineParses (s_msFormat : Bool) (versions : VerMap) (l : List Char)
    (h : lineParses s_msFormat l = true) :
    parseLine s_msFormat versions l
      = .ok (match lineEntry s_msFormat l with
        | some e => mapAssign e.1 e.2 versions
        | none => versions) := by
  unfold lineParses at h
  unfold parseLine lineEntry
  split
  · rename_i name verStr hs
    simp only [hs] at h
    cases ho : ResVersion.ofString s_msFormat verStr with
    | error e => simp [ho] at h
    | ok ver =>
      by_cases hv : ver.IsValid = true <;> simp [ho, hv, bind, Except.bind, pure, Except.pure]
  · rfl

theorem lastEntry_cons (s_msFormat : Bool) (name l : List Char) (ls : List (List Char)) :
    lastEntry s_msFormat name (l :: ls)
      = (match lastEntry s_msFormat name ls with
        | some v => some v
        | none =>
          match lineEntry s_msFormat l with
          | some (n, v) => if n = name then some v else none
          | none => none) := rfl

theorem parseLines_spec (s_msFormat : Bool) :
    ∀ (lines : List (List Char)) (versions : VerMap),
      (∀ l ∈ lines, lineParses s_msFormat l = true) →
      ∃ m, parseLines s_msFormat lines versions = .ok m ∧
        ∀ name, mapFind name m
          = (match lastEntry s_msFormat name lines with
            | some v => some v
            | none => mapFind name versions)
  | [], versions, _ => ⟨versions, rfl, fun _ => rfl⟩
  | l :: ls, versions, h => by
    have hl := parseLine_of_lineParses s_msFormat versions l (h l (by simp))
    obtain ⟨m, hm, hfind⟩ := parseLines_spec s_msFormat ls
      (match lineEntry s_msFormat l with
        | some e => mapAssign e.1 e.2 versions
        | none => versions) (fun x hx => h x (by simp [hx]))
    refine ⟨m, by simp [parseLines, hl, hm, bind, Except.bind], fun name => ?_⟩
    rw [hfind name, lastEntry_cons]
    cases hlast : lastEntry s_msFormat name ls with
    | some v => rfl
    | none =>
      cases he : lineEntry s_msFormat l with
      | none => rfl
      | some e =>
        obtain ⟨n, v⟩ := e
        by_cases hn : n = name
        · subst hn; simp [mapFind_mapAssign_self]
        · simp [hn, mapFind_mapAssign_ne n name v (Ne.symm hn)]

theorem lastEntry_eq_some_iff (s_msFormat : Bool) (name : List Char) (v : ResVersion) :
    ∀ lines : List (List Char), lastEntry s_msFormat name lines = some v ↔
      ∃ pre l post, lines = pre ++ l :: post ∧ lineEntry s_msFormat l = some (name, v) ∧
        ∀ l' ∈ post, ∀ v', lineEntry s_msFormat l' ≠ some (name, v')
  | [] => by simp [lastEntry]
  | l :: ls => by
    have ih := lastEntry_eq_some_iff s_msFormat name v ls
    have hnone : lastEntry s_msFormat name ls = none →
        ∀ l' ∈ ls, ∀ v', lineEntry s_msFormat l' ≠ some (name, v') := by
      intro hn l' hl' v' he
      obtain ⟨a, b, hab⟩ := List.append_of_mem hl'
      -- the last line of `ls` standing for `name` gives `lastEntry` a value
      have : ∀ (xs : List (List Char)), (∃ y ∈ xs, ∃ w, lineEntry s_msFormat y = some (name, w)) →
          lastEntry s_msFormat name xs ≠ none := by
        intro xs
        induction xs with
        | nil => simp
        | cons x xs ihx =>
          rintro ⟨y, hy, w, hw⟩
          rw [lastEntry_cons]
          cases hx : lastEntry s_msFormat name xs with
          | some _ => simp
          | none =>
            rcases List.mem_cons.mp hy with rfl | hy'
            · simp [hw]
            · exact absurd hx (ihx ⟨y, hy', w, hw⟩)
      exact this ls ⟨l', hl', v', he⟩ hn
    constructor
    · intro h
      rw [lastEntry_cons] at h
      cases hlast : lastEntry s_msFormat name ls with
      | some w =>
        simp only [hlast, Option.some.injEq] at h
        subst h
        obtain ⟨pre, x, post, h1, h2, h3⟩ := ih.mp hlast
        exact ⟨l :: pre, x, post, by simp [h1], h2, h3⟩
      | none =>
        simp only [hlast] at h
        cases he : lineEntry s_msFormat l with
        | none => simp [he] at h
        | some e =>
          obtain ⟨n, w⟩ := e
          simp only [he] at h
          by_cases hn : n = name
          · simp only [hn, if_true, Option.some.injEq] at h
            subst h; subst hn
            exact ⟨[], l, ls, rfl, he, hnone hlast⟩
          · simp [hn] at h
    · rintro ⟨pre, x, post, h1, h2, h3⟩
      cases pre with
      | nil =>
        simp only [List.nil_append, List.cons.injEq] at h1
        obtain ⟨rfl, rfl⟩ := h1
        rw [lastEntry_cons]
        cases hlast : lastEntry s_msFormat name ls with
        | some w =>
          obtain ⟨pre', x', post', g1, g2, _⟩ :=
            (lastEntry_eq_some_iff s_msFormat name w ls).mp hlast
          exact absurd g2 (h3 x' (by simp [g1]) w)
        | none => simp [h2]
      | cons p pre' =>
        simp only [List.cons_append, List.cons.injEq] at h1
        obtain ⟨rfl, rfl⟩ := h1
        have := ih.mpr ⟨pre', x, post, rfl, h2, h3⟩
        simp [lastEntry_cons, this]

theorem lineEntry_eq_some_iff (s_msFormat : Bool) (l name : List Char) (v : ResVersion) :
    lineEntry s_msFormat l = some (name, v) ↔
      ∃ verStr, Split l ['\t'] = [name, verStr]
        ∧ ResVersion.ofString s_msFormat verStr = .ok v ∧ v.IsValid = true := by
  unfold lineEntry
  split
  · rename_i n verStr hs
    rw [hs]
    cases ho : ResVersion.ofString s_msFormat verStr with
    | error e =>
      constructor
      · intro h; cases h
      · rintro ⟨vs, h1, h2, _⟩
        simp only [List.cons.injEq, and_true] at h1
        obtain ⟨rfl, rfl⟩ := h1
        rw [ho] at h2
        cases h2
    | ok ver =>
      by_cases hv : ver.IsValid = true
      · simp only [if_pos hv, Option.some.injEq, Prod.mk.injEq]
        constructor
        · rintro ⟨rfl, rfl⟩; exact ⟨verStr, rfl, ho, hv⟩
        · rintro ⟨vs, h1, h2, _⟩
          simp only [List.cons.injEq, and_true] at h1
          obtain ⟨rfl, rfl⟩ := h1
          rw [ho] at h2
          exact ⟨rfl, by injection h2⟩
      · simp only [if_neg hv]
        constructor
        · intro h; cases h
        · rintro ⟨vs, h1, h2, h3⟩
          simp only [List.cons.injEq, and_true] at h1
          obtain ⟨rfl, rfl⟩ := h1
          rw [ho] at h2
          injection h2 with h2
          subst h2
          exact absurd h3 hv
  · rename_i hne
    constructor
    · intro h; cases h
    · rintro ⟨vs, h1⟩
      exact absurd h1.1 (hne name vs)

theorem ofString_of_wrong_count (s_msFormat : Bool) (verStr : List Char)
    (h : ResVersion.componentCount verStr ≠ 3 ∧ ResVersion.componentCount verStr ≠ 4) :
    ResVersion.ofString s_msFormat verStr = .ok { m_valid := false } := by
  have hlen := Split_length '.' verStr
  unfold ResVersion.componentCount at h
  rw [← hlen] at h
  unfold ResVersion.ofString
  generalize Split verStr ['.'] = parts at h
  match parts, h with
  | [], _ => rfl
  | [_], _ => rfl
  | [_, _], _ => rfl
  | [_, _, _], h => exact absurd rfl h.1
  | [_, _, _, _], h => exact absurd rfl h.2
  | _ :: _ :: _ :: _ :: _ :: _, _ => rfl

theorem ofString_valid_count (s_msFormat : Bool) (verStr : List Char) (v : ResVersion)
    (h : ResVersion.ofString s_msFormat verStr = .ok v) (hv : v.IsValid = true) :
    ResVersion.componentCount verStr = 3 ∨ ResVersion.componentCount verStr = 4 := by
  by_contra hc
  have hc' : ResVersion.componentCount verStr ≠ 3 ∧ ResVersion.componentCount verStr ≠ 4 :=
    ⟨fun e => hc (Or.inl e), fun e => hc (Or.inr e)⟩
  rw [ofString_of_wrong_count s_msFormat verStr hc'] at h
  injection h with h
  subst h
  exact absurd hv (by decide)

/-! ### Lemmas on the `std::map` model and on the loop that looks the name up -/

theorem mem_mapAssign {κ : Type} [LinearOrder κ] (k : κ) (v : ResVersion) :
    ∀ (m : List (κ × ResVersion)) (e : κ × ResVersion), e ∈ mapAssign k v m → e = (k, v) ∨ e ∈ m
  | [], e, h => by simpa [mapAssign] using h
  | (k', v') :: rest, e, h => by
    unfold mapAssign at h
    split_ifs at h with h1 h2
    · rcases List.mem_cons.mp h with h | h
      · exact Or.inl h
      · exact Or.inr h
    · rcases List.mem_cons.mp h with h | h
      · exact Or.inl h
      · exact Or.inr (List.mem_cons_of_mem _ h)
    · rcases List.mem_cons.mp h with h | h
      · exact Or.inr (by simp [h])
      · rcases mem_mapAssign k v rest e h with h | h
        · exact Or.inl h
        · exact Or.inr (List.mem_cons_of_mem _ h)

theorem mapAssign_sorted {κ : Type} [LinearOrder κ] (k : κ) (v : ResVersion) :
    ∀ (m : List (κ × ResVersion)), m.Pairwise (fun a b => a.1 < b.1) →
      (mapAssign k v m).Pairwise (fun a b => a.1 < b.1)
  | [], _ => by simp [mapAssign]
  | (k', v') :: rest, h => by
    obtain ⟨hhead, htail⟩ := List.pairwise_cons.mp h
    unfold mapAssign
    split_ifs with h1 h2
    · refine List.pairwise_cons.mpr ⟨?_, h⟩
      intro e he
      rcases List.mem_cons.mp he with he | he
      · subst he; exact h1
      · exact lt_trans h1 (hhead e he)
    · subst h2
      exact List.pairwise_cons.mpr ⟨hhead, htail⟩
    · refine List.pairwise_cons.mpr ⟨?_, mapAssign_sorted k v rest htail⟩
      intro e he
      rcases mem_mapAssign k v rest e he with he | he
      · subst he
        exact lt_of_le_of_ne (not_lt.mp h1) (Ne.symm h2)
      · exact hhead e he

theorem foldl_mapAssign_sorted {κ ι : Type} [LinearOrder κ] (f : ι → κ) (g : ι → ResVersion) :
    ∀ (l : List ι) (m : List (κ × ResVersion)), m.Pairwise (fun a b => a.1 < b.1) →
      (l.foldl (fun versions e => mapAssign (f e) (g e) versions) m).Pairwise
        (fun a b => a.1 < b.1)
  | [], _, h => h
  | x :: xs, m, h => by
    simp only [List.foldl_cons]
    exact foldl_mapAssign_sorted f g xs _ (mapAssign_sorted (f x) (g x) m h)

theorem parseVersionFileDataW_sorted (s2ws : List Char → WString) (s_msFormat : Bool)
    (data : List Char) (versions : VerMapW)
    (h : parseVersionFileDataW s2ws s_msFormat data = .ok versions) :
    versions.Pairwise (fun a b => a.1 < b.1) := by
  unfold parseVersionFileDataW at h
  cases hp : parseVersionFileData s_msFormat data with
  | error e => simp [hp, bind, Except.bind] at h
  | ok vv =>
    simp only [hp, bind, Except.bind, pure, Except.pure, Except.ok.injEq] at h
    subst h
    exact foldl_mapAssign_sorted (fun e => s2ws e.1) (fun e => e.2) vv [] List.Pairwise.nil

theorem mapFind_eq_none_of_lt {κ : Type} [LinearOrder κ] (k : κ) :
    ∀ (m : List (κ × ResVersion)), (∀ e ∈ m, k < e.1) → mapFind k m = none
  | [], _ => rfl
  | (k', v') :: rest, h => by
    have h1 : k ≠ k' := ne_of_lt (h (k', v') (by simp))
    simp only [mapFind, h1, if_false]
    exact mapFind_eq_none_of_lt k rest (fun e he => h e (List.mem_cons_of_mem _ he))

theorem foldl_findNewVer (name : WString) :
    ∀ (versions : VerMapW) (init : ResVersion),
      versions.Pairwise (fun a b => a.1 < b.1) →
      versions.foldl (fun newVer e => if e.1 = name then e.2 else newVer) init
        = (match mapFind name versions with
          | some v => v
          | none => init)
  | [], _, _ => rfl
  | (k, v) :: rest, init, h => by
    obtain ⟨hhead, htail⟩ := List.pairwise_cons.mp h
    simp only [List.foldl_cons]
    rw [foldl_findNewVer name rest _ htail]
    by_cases hk : k = name
    · subst hk
      have hnone := mapFind_eq_none_of_lt k rest hhead
      simp [mapFind, hnone]
    · have hk' : ¬ name = k := fun e => hk e.symm
      simp [mapFind, hk, hk']

theorem findNewVer_eq (versions : VerMapW) (name : WString)
    (h : versions.Pairwise (fun a b => a.1 < b.1)) :
    findNewVer versions name
      = (match mapFind name versions with
        | some v => v
        | none => ResVersion.default) :=
  foldl_findNewVer name versions ResVersion.default h

theorem version_le_of_not_gt (s_msFormat : Bool) (a b : ResVersion)
    (h : ResVersion.gt s_msFormat a b = false) : ResVersion.le s_msFormat a b = true := by
  revert h
  rcases Nat.lt_trichotomy a.m_major b.m_major with h1 | h1 | h1 <;>
  rcases Nat.lt_trichotomy a.m_minor b.m_minor with h2 | h2 | h2 <;>
  rcases Nat.lt_trichotomy a.m_revision b.m_revision with h3 | h3 | h3 <;>
  rcases Nat.lt_trichotomy a.m_build b.m_build with h4 | h4 | h4 <;>
  cases s_msFormat <;>
  simp [ResVersion.le, ResVersion.lt, ResVersion.eq, ResVersion.gt, *, Nat.lt_asymm,
    Nat.ne_of_lt, Nat.ne_of_gt]

theorem version_not_le_of_gt (s_msFormat : Bool) (a b : ResVersion)
    (h : ResVersion.gt s_msFormat a b = true) : ResVersion.le s_msFormat a b = false := by
  revert h
  rcases Nat.lt_trichotomy a.m_major b.m_major with h1 | h1 | h1 <;>
  rcases Nat.lt_trichotomy a.m_minor b.m_minor with h2 | h2 | h2 <;>
  rcases Nat.lt_trichotomy a.m_revision b.m_revision with h3 | h3 | h3 <;>
  rcases Nat.lt_trichotomy a.m_build b.m_build with h4 | h4 | h4 <;>
  cases s_msFormat <;>
  simp [ResVersion.le, ResVersion.lt, ResVersion.eq, ResVersion.gt, *, Nat.lt_asymm,
    Nat.ne_of_lt, Nat.ne_of_gt]

/-! ### Lemmas on the events of the member functions -/

theorem doUpdate_no_callback (env : Env) (st : Statics) (self : State) (h : List Event) :
    ∀ e ∈ (doUpdate env st self h).events, e.isCallback = false := by
  unfold doUpdate
  simp only
  repeat' split
  all_goals simp [Event.isCallback]

theorem cleanUp_no_callback (env : Env) (self : State) (h : List Event) :
    ∀ e ∈ (cleanUp env self h).events, e.isCallback = false := by
  unfold cleanUp
  simp only
  repeat' split
  all_goals simp [Event.isCallback]

theorem invokeCallback_no_callback (env : Env) (st : Statics) (self : State)
    (h : List Event) (cb : UpdateType) :
    ∀ e ∈ (invokeCallback env st self h cb).events, e.isCallback = false := by
  cases cb with
  | Window =>
    simp only [invokeCallback, UpdateAvailableWindow]
    split_ifs
    · intro e he
      rcases List.mem_append.mp he with he | he
      · simp at he; subst he; rfl
      · exact doUpdate_no_callback _ _ _ _ e he
    · intro e he
      rcases List.mem_append.mp he with he | he
      · simp at he; subst he; rfl
      · exact cleanUp_no_callback _ _ _ e he
  | Console =>
    simp only [invokeCallback, UpdateAvailableConsole]
    split_ifs
    · intro e he
      rcases List.mem_append.mp he with he | he
      · simp at he; subst he; rfl
      · exact doUpdate_no_callback _ _ _ _ e he
    · intro e he
      rcases List.mem_append.mp he with he | he
      · simp at he; subst he; rfl
      · exact cleanUp_no_callback _ _ _ e he
  | Custom => simp [invokeCallback]

theorem countP_eq_zero_of_forall (p : Event → Bool) (l : List Event)
    (h : ∀ e ∈ l, p e = false) : l.countP p = 0 := by
  rw [List.countP_eq_zero]
  intro e he
  simp [h e he]

theorem removeLoop_all_steps (env : Env) (realPath : WString) :
    ∀ (n : Nat) (h : List Event),
      (removeLoop env realPath n h).1.all (Event.isRetryStep realPath) = true
  | 0, _ => by simp [removeLoop]
  | n + 1, h => by
    unfold removeLoop
    simp only
    repeat' split
    all_goals simp [Event.isRetryStep, removeLoop_all_steps env realPath n]

theorem removeLoop_steps (env : Env) (realPath : WString) (n : Nat) (h : List Event) :
    ∀ e ∈ (removeLoop env realPath n h).1, e.isRetryStep realPath = true :=
  List.all_eq_true.mp (removeLoop_all_steps env realPath n h)

theorem checkForUpdatesThrd_of_parsed (env : Env) (st : Statics) (self : State)
    (h : List Event) (data : List Char) (versions : VerMapW)
    (hrole : self.m_isTemp = false)
    (hfetch : env.Download h (st.s_baseUrl ++ L "/" ++ st.s_versionFilename) = some data)
    (hparse : parseVersionFileDataW env.s2ws st.s_msFormat data = .ok versions) :
    checkForUpdatesThrd env st self h
      = if (findNewVer versions self.m_exeName).IsValid = false then
          ⟨self, [.Download (st.s_baseUrl ++ L "/" ++ st.s_versionFilename) true],
            .returned false⟩
        else if ResVersion.le st.s_msFormat (findNewVer versions self.m_exeName)
            self.m_version then
          ⟨self, [.Download (st.s_baseUrl ++ L "/" ++ st.s_versionFilename) true],
            .returned false⟩
        else
          match self.m_callback with
          | none =>
            ⟨self, [.Download (st.s_baseUrl ++ L "/" ++ st.s_versionFilename) true],
              .returned true⟩
          | some cb =>
            ⟨(invokeCallback env st self
                (h ++ ([.Download (st.s_baseUrl ++ L "/" ++ st.s_versionFilename) true]
                  ++ [.callback cb])) cb).self,
              [.Download (st.s_baseUrl ++ L "/" ++ st.s_versionFilename) true]
                ++ [.callback cb]
                ++ (invokeCallback env st self
                  (h ++ ([.Download (st.s_baseUrl ++ L "/" ++ st.s_versionFilename) true]
                    ++ [.callback cb])) cb).events,
              match (invokeCallback env st self
                  (h ++ ([.Download (st.s_baseUrl ++ L "/" ++ st.s_versionFilename) true]
                    ++ [.callback cb])) cb).outcome with
              | .returned _ => .returned true
              | .raised e => .raised e
              | .exited c => .exited c⟩ := by
  unfold checkForUpdatesThrd
  rw [if_neg (by simp [hrole])]
  simp only [hfetch, hparse]

theorem retryStep_kinds (realPath : WString) (e : Event)
    (h : e.isRetryStep realPath = true) :
    e.isCopyFile = false ∧ e.isCreateProcess = false ∧ e.isExit = false := by
  cases e <;> simp_all [Event.isRetryStep, Event.isCopyFile, Event.isCreateProcess,
    Event.isExit]

theorem replaceTempVersion_staged (env : Env) (self : State) (h : List Event)
    (hstaged : List.isPrefixOf TEMP_PREFIX self.m_exeName = true) :
    replaceTempVersion env self h
      = match removeLoop env (realPath self) 5 (h ++ [.sleep_for 100]) with
        | (el, some _) => ⟨{ self with m_isTemp := true }, [.sleep_for 100] ++ el, .returned false⟩
        | (el, none) =>
          match env.copyFile (h ++ ([.sleep_for 100] ++ el)) self.m_fullExePath (realPath self)
              false with
          | .error e =>
            ⟨{ self with m_isTemp := true },
              [.sleep_for 100] ++ el
                ++ [.copyFile self.m_fullExePath (realPath self) false (.error e)],
              .raised e⟩
          | .ok copied =>
            if copied = false then
              ⟨{ self with m_isTemp := true },
                [.sleep_for 100] ++ el
                  ++ [.copyFile self.m_fullExePath (realPath self) false (.ok copied)],
                .returned false⟩
            else if env.CreateProcess
                (h ++ ([.sleep_for 100] ++ el
                  ++ [.copyFile self.m_fullExePath (realPath self) false (.ok copied)]))
                (realPath self) then
              ⟨{ self with m_isTemp := true },
                [.sleep_for 100] ++ el
                  ++ [.copyFile self.m_fullExePath (realPath self) false (.ok copied)]
                  ++ [.CreateProcess (realPath self) true, .exit 0],
                .exited 0⟩
            else
              ⟨{ self with m_isTemp := true },
                [.sleep_for 100] ++ el
                  ++ [.copyFile self.m_fullExePath (realPath self) false (.ok copied)]
                  ++ [.CreateProcess (realPath self) false],
                .returned false⟩ := by
  unfold replaceTempVersion
  rw [if_pos hstaged]

theorem isDecimalNumber_spec (p : List Char) (h : ResVersion.isDecimalNumber p = true) :
    p ≠ [] ∧ ∀ c ∈ p, isdigit c = true := by
  unfold ResVersion.isDecimalNumber at h
  simp only [Bool.and_eq_true, Bool.not_eq_true', List.all_eq_true] at h
  refine ⟨?_, h.2⟩
  intro hp
  subst hp
  simp at h

theorem decimal_no_dot (p : List Char) (h : ResVersion.isDecimalNumber p = true) :
    '.' ∉ p := fun hm =>
  isdigit_ne_dot _ ((isDecimalNumber_spec p h).2 _ hm) rfl

theorem stoi_decimal (p : List Char) (h : ResVersion.isDecimalNumber p = true)
    (hv : digitsValue p ≤ 2147483647) : stoi p = .ok (digitsValue p : Int) := by
  obtain ⟨h1, h2⟩ := isDecimalNumber_spec p h
  have := stoi_digits p [] h1 h2 (by simp) hv
  simpa using this

theorem toUInt16_natCast_mod (n : Nat) : toUInt16 (n : Int) = n % 65536 := by
  unfold toUInt16
  omega

theorem fmt_isDecimalNumber (n : Nat) : ResVersion.isDecimalNumber (fmt n) = true := by
  obtain ⟨h1, h2, _⟩ := fmt_spec n
  unfold ResVersion.isDecimalNumber
  simp only [Bool.and_eq_true, Bool.not_eq_true', List.all_eq_true]
  refine ⟨?_, h2⟩
  cases hf : fmt n with
  | nil => exact absurd hf h1
  | cons c cs => rfl

theorem ofString_three_decimal (s_msFormat : Bool) (p0 p1 p2 : List Char)
    (h0 : ResVersion.isDecimalNumber p0 = true) (h1 : ResVersion.isDecimalNumber p1 = true)
    (h2 : ResVersion.isDecimalNumber p2 = true)
    (v0 : digitsValue p0 ≤ 2147483647) (v1 : digitsValue p1 ≤ 2147483647)
    (v2 : digitsValue p2 ≤ 2147483647) :
    ResVersion.ofString s_msFormat (p0 ++ ['.'] ++ p1 ++ ['.'] ++ p2)
      = .ok (ResVersion.swapIfMs s_msFormat
          { m_major := digitsValue p0 % 65536, m_minor := digitsValue p1 % 65536,
            m_revision := digitsValue p2 % 65536, m_build := 0, m_valid := true }) := by
  unfold ResVersion.ofString
  rw [Split_three _ _ _ (decimal_no_dot _ h0) (decimal_no_dot _ h1) (decimal_no_dot _ h2)]
  simp only [stoi_decimal _ h0 v0, stoi_decimal _ h1 v1, stoi_decimal _ h2 v2]
  simp [bind, Except.bind, pure, Except.pure, toUInt16_natCast_mod]

theorem ofString_four_decimal (s_msFormat : Bool) (p0 p1 p2 p3 : List Char)
    (h0 : ResVersion.isDecimalNumber p0 = true) (h1 : ResVersion.isDecimalNumber p1 = true)
    (h2 : ResVersion.isDecimalNumber p2 = true) (h3 : ResVersion.isDecimalNumber p3 = true)
    (v0 : digitsValue p0 ≤ 2147483647) (v1 : digitsValue p1 ≤ 2147483647)
    (v2 : digitsValue p2 ≤ 2147483647) (v3 : digitsValue p3 ≤ 2147483647) :
    ResVersion.ofString s_msFormat (p0 ++ ['.'] ++ p1 ++ ['.'] ++ p2 ++ ['.'] ++ p3)
      = .ok (ResVersion.swapIfMs s_msFormat
          { m_major := digitsValue p0 % 65536, m_minor := digitsValue p1 % 65536,
            m_revision := digitsValue p2 % 65536, m_build := digitsValue p3 % 65536,
            m_valid := true }) := by
  unfold ResVersion.ofString
  rw [Split_four _ _ _ _ (decimal_no_dot _ h0) (decimal_no_dot _ h1) (decimal_no_dot _ h2)
    (decimal_no_dot _ h3)]
  simp only [stoi_decimal _ h0 v0, stoi_decimal _ h1 v1, stoi_decimal _ h2 v2,
    stoi_decimal _ h3 v3]
  simp [bind, Except.bind, pure, Except.pure, toUInt16_natCast_mod]

theorem ofString_invalid_eq_default (s_msFormat : Bool) (verStr : List Char)
    (a : ResVersion) (h : ResVersion.ofString s_msFormat verStr = .ok a)
    (ha : a.IsValid = false) : a = {} := by
  by_cases hc : ResVersion.componentCount verStr = 3 ∨ ResVersion.componentCount verStr = 4
  · exfalso
    have hlen := Split_length '.' verStr
    unfold ResVersion.componentCount at hc
    rw [← hlen] at hc
    unfold ResVersion.ofString at h
    generalize Split verStr ['.'] = parts at h hc
    match parts, hc with
    | [p0, p1, p2], _ =>
      cases e0 : stoi p0 <;> cases e1 : stoi p1 <;> cases e2 : stoi p2 <;>
        simp [e0, e1, e2, bind, Except.bind, pure, Except.pure] at h
      cases s_msFormat <;> simp [ResVersion.swapIfMs] at h <;>
        simp [← h, ResVersion.IsValid] at ha
    | [p0, p1, p2, p3], _ =>
      cases e0 : stoi p0 <;> cases e1 : stoi p1 <;> cases e2 : stoi p2 <;>
        cases e3 : stoi p3 <;>
        simp [e0, e1, e2, e3, bind, Except.bind, pure, Except.pure] at h
      cases s_msFormat <;> simp [ResVersion.swapIfMs] at h <;>
        simp [← h, ResVersion.IsValid] at ha
    | [], hc => simp at hc
    | [_], hc => simp at hc
    | [_, _], hc => simp at hc
    | _ :: _ :: _ :: _ :: _ :: _, hc => simp at hc
  · have hc' : ResVersion.componentCount verStr ≠ 3 ∧ ResVersion.componentCount verStr ≠ 4 :=
      ⟨fun e => hc (Or.inl e), fun e => hc (Or.inr e)⟩
    rw [ofString_of_wrong_count s_msFormat verStr hc'] at h
    injection h with h
    exact h.symm

theorem gt_default (s_msFormat : Bool) (b : ResVersion) :
    ResVersion.gt s_msFormat {} b = false := by
  cases s_msFormat <;> simp [ResVersion.gt]

/-! ### Lemmas on `doUpdate` and on the launcher branch of `replaceTempVersion` -/

theorem doUpdate_download_failed (env : Env) (st : Statics) (self : State) (h : List Event)
    (hdl : downloadAnswer env st self h = false) :
    (doUpdate env st self h).events
        = [.DownloadFile (updateUrl st self) (tempExePath env self) false]
    ∧ (doUpdate env st self h).outcome = .returned false := by
  unfold downloadAnswer updateUrl tempExePath at hdl
  unfold doUpdate updateUrl tempExePath
  simp only [hdl, if_true]
  exact ⟨by trivial, by trivial⟩

theorem doUpdate_copy_raised (env : Env) (st : Statics) (self : State) (h : List Event)
    (e : Exc) (hdl : downloadAnswer env st self h = true)
    (hcp : copyAnswer env st self h = .error e) :
    (doUpdate env st self h).events
        = [.DownloadFile (updateUrl st self) (tempExePath env self) true,
            .copyFile (tempExePath env self) (newExePath env self) true (.error e)]
    ∧ (doUpdate env st self h).outcome = .raised e := by
  unfold downloadAnswer updateUrl tempExePath at hdl
  unfold copyAnswer newExePath updateUrl tempExePath at hcp
  unfold doUpdate newExePath updateUrl tempExePath
  simp only [hdl, Bool.true_eq_false, if_false, hcp]
  exact ⟨by trivial, by trivial⟩

theorem doUpdate_copy_false (env : Env) (st : Statics) (self : State) (h : List Event)
    (hdl : downloadAnswer env st self h = true)
    (hcp : copyAnswer env st self h = .ok false) :
    (doUpdate env st self h).events
        = [.DownloadFile (updateUrl st self) (tempExePath env self) true,
            .copyFile (tempExePath env self) (newExePath env self) true (.ok false)]
    ∧ (doUpdate env st self h).outcome = .returned false := by
  unfold downloadAnswer updateUrl tempExePath at hdl
  unfold copyAnswer newExePath updateUrl tempExePath at hcp
  unfold doUpdate newExePath updateUrl tempExePath
  simp only [hdl, Bool.true_eq_false, if_false, hcp, if_true]
  exact ⟨by trivial, by trivial⟩

theorem doUpdate_launch_failed (env : Env) (st : Statics) (self : State) (h : List Event)
    (hdl : downloadAnswer env st self h = true)
    (hcp : copyAnswer env st self h = .ok true)
    (hlaunch : launchAnswer env st self h = false) :
    (doUpdate env st self h).events
        = [.DownloadFile (updateUrl st self) (tempExePath env self) true,
            .copyFile (tempExePath env self) (newExePath env self) true (.ok true),
            .CreateProcess (newExePath env self) false]
    ∧ (doUpdate env st self h).outcome = .returned false := by
  unfold downloadAnswer updateUrl tempExePath at hdl
  unfold copyAnswer newExePath updateUrl tempExePath at hcp
  unfold launchAnswer newExePath updateUrl tempExePath at hlaunch
  unfold doUpdate newExePath updateUrl tempExePath
  simp only [hdl, Bool.true_eq_false, if_false, hcp, hlaunch]
  exact ⟨by trivial, by trivial⟩

theorem doUpdate_all_succeeded (env : Env) (st : Statics) (self : State) (h : List Event)
    (hdl : downloadAnswer env st self h = true)
    (hcp : copyAnswer env st self h = .ok true)
    (hlaunch : launchAnswer env st self h = true) :
    (doUpdate env st self h).events
        = [.DownloadFile (updateUrl st self) (tempExePath env self) true,
            .copyFile (tempExePath env self) (newExePath env self) true (.ok true),
            .CreateProcess (newExePath env self) true, .exit 0]
    ∧ (doUpdate env st self h).outcome = .exited 0 := by
  unfold downloadAnswer updateUrl tempExePath at hdl
  unfold copyAnswer newExePath updateUrl tempExePath at hcp
  unfold launchAnswer newExePath updateUrl tempExePath at hlaunch
  unfold doUpdate newExePath updateUrl tempExePath
  simp only [hdl, Bool.true_eq_false, if_false, hcp, hlaunch, if_true]
  exact ⟨by trivial, by trivial⟩

theorem doUpdate_paths (env : Env) (st : Statics) (self : State) (h : List Event) :
    (doUpdate env st self h).self.m_tempExePath = tempExePath env self
    ∧ (downloadAnswer env st self h = true →
        (doUpdate env st self h).self.m_newExePath = newExePath env self) := by
  unfold downloadAnswer doUpdate newExePath updateUrl tempExePath
  simp only
  repeat' split
  all_goals simp_all

theorem replaceTempVersion_launcher (env : Env) (self : State) (h : List Event) (r : Bool)
    (hlauncher : List.isPrefixOf TEMP_PREFIX self.m_exeName = false)
    (hexists : env.fsExists h (leftoverPath self) = .ok true)
    (hremove : env.fsRemove (h ++ [.fsExists (leftoverPath self) (.ok true)])
        (leftoverPath self) = .ok r) :
    (replaceTempVersion env self h).events
        = [.fsExists (leftoverPath self) (.ok true), .fsRemove (leftoverPath self) (.ok r)]
    ∧ (replaceTempVersion env self h).outcome = .returned true
    ∧ (replaceTempVersion env self h).self = self := by
  unfold leftoverPath at hexists hremove
  unfold replaceTempVersion leftoverPath
  rw [if_neg (by simp [hlauncher])]
  simp only [hexists, Bool.true_eq_false, if_false, hremove]
  exact ⟨by trivial, by trivial, by trivial⟩

theorem replaceTempVersion_launcher_raised (env : Env) (self : State) (h : List Event)
    (e : Exc) (hlauncher : List.isPrefixOf TEMP_PREFIX self.m_exeName = false)
    (hexists : env.fsExists h (leftoverPath self) = .ok true)
    (hremove : env.fsRemove (h ++ [.fsExists (leftoverPath self) (.ok true)])
        (leftoverPath self) = .error e) :
    (replaceTempVersion env self h).events
        = [.fsExists (leftoverPath self) (.ok true), .fsRemove (leftoverPath self) (.error e)]
    ∧ (replaceTempVersion env self h).outcome = .raised e := by
  unfold leftoverPath at hexists hremove
  unfold replaceTempVersion leftoverPath
  rw [if_neg (by simp [hlauncher])]
  simp only [hexists, Bool.true_eq_false, if_false, hremove]
  exact ⟨by trivial, by trivial⟩

theorem init_eq (env : Env) (st : Statics) (h : List Event) (p : ExePath)
    (hpath : env.GetExecutablePath = .ok p) :
    (init env st h).self = (replaceTempVersion env (initialState env st p) h).self
    ∧ (init env st h).events = (replaceTempVersion env (initialState env st p) h).events
    ∧ (init env st h).outcome
        = (replaceTempVersion env (initialState env st p) h).outcome.discard := by
  unfold init initialState
  simp only [hpath]
  exact ⟨by trivial, by trivial, by trivial⟩

theorem checkForUpdatesThrd_fetches (env : Env) (st : Statics) (self : State)
    (h : List Event) (hrole : self.m_isTemp = false) :
    ∃ res rest, (checkForUpdatesThrd env st self h).events
      = .Download (manifestUrl st) res :: rest := by
  unfold checkForUpdatesThrd manifestUrl
  rw [if_neg (by simp [hrole])]
  simp only
  repeat' split
  all_goals exact ⟨_, _, rfl⟩

theorem takeWhile_append_stop {α : Type} (p : α → Bool) (x : α) (r : List α) :
    ∀ (l : List α), (∀ a ∈ l, p a = true) → p x = false →
      (l ++ x :: r).takeWhile p = l
  | [], _, hx => by simp [List.takeWhile, hx]
  | a :: l, hl, hx => by
    have ha : p a = true := hl a (by simp)
    simp [List.takeWhile, ha,
      takeWhile_append_stop p x r l (fun b hb => hl b (by simp [hb])) hx]

theorem filename_of_dir_name (dir name : WString) (hname : isFileName name) :
    filename (dir ++ L "\\" ++ name) = name := by
  have hL : L "\\" = [92] := by decide
  unfold filename
  rw [hL]
  have hrev : (dir ++ [92] ++ name).reverse = name.reverse ++ 92 :: dir.reverse := by simp
  rw [hrev, takeWhile_append_stop _ 92 dir.reverse name.reverse _ (by simp)]
  · simp
  · intro a ha
    have := hname a (List.mem_reverse.mp ha)
    simp [this.1, this.2]

theorem isFileName_stagedName (name : WString) (hname : isFileName name) :
    isFileName (stagedName name) := by
  have hP : TEMP_PREFIX = [95, 85, 95] := by decide
  unfold stagedName
  rw [hP]
  intro c hc
  simp only [List.cons_append, List.nil_append, List.mem_cons] at hc
  rcases hc with rfl | rfl | rfl | hc
  · decide
  · decide
  · decide
  · exact hname c hc

theorem newExePath_eq (env : Env) (self : State) (hname : isFileName self.m_exeName) :
    newExePath env self = self.m_exePath ++ L "\\" ++ stagedName self.m_exeName := by
  unfold newExePath tempExePath
  have e : env.temp_directory_path ++ L "\\" ++ TEMP_PREFIX ++ self.m_exeName
      = env.temp_directory_path ++ L "\\" ++ stagedName self.m_exeName := by
    unfold stagedName
    simp
  rw [e, filename_of_dir_name _ _ (isFileName_stagedName _ hname)]

theorem replaceTempVersion_launcher_self (env : Env) (self : State) (h : List Event)
    (hlauncher : List.isPrefixOf TEMP_PREFIX self.m_exeName = false) :
    (replaceTempVersion env self h).self = self := by
  unfold replaceTempVersion
  rw [if_neg (by simp [hlauncher])]
  simp only
  repeat' split
  all_goals rfl

theorem replaceTempVersion_staged_isTemp (env : Env) (self : State) (h : List Event)
    (hstaged : List.isPrefixOf TEMP_PREFIX self.m_exeName = true) :
    (replaceTempVersion env self h).self.m_isTemp = true := by
  unfold replaceTempVersion
  rw [if_pos hstaged]
  simp only
  repeat' split
  all_goals rfl

theorem isPrefixOf_stagedName (name : WString) :
    List.isPrefixOf TEMP_PREFIX (stagedName name) = true := by
  unfold stagedName
  exact List.isPrefixOf_iff_prefix.mpr (List.prefix_append _ _)

theorem drop_stagedName (name : WString) :
    (stagedName name).drop (List.length TEMP_PREFIX) = name := by
  unfold stagedName
  exact List.drop_left' rfl

/-- For a launcher-role process, when the manifest fetch fails, or the manifest is parsed
without an error and the mapping has no valid entry for the executable's own name, or its
Version for that name is not strictly greater than the running Version (the equal case
included), `checkForUpdatesThrd` returns false and never invokes the notification
callback. -/
theorem checkForUpdatesThrd_no_update (env : Env) (st : Statics) (self : State) (h : List Event)
    (hrole : self.m_isTemp = false)
    (hcase : env.Download h (st.s_baseUrl ++ L "/" ++ st.s_versionFilename) = none
      ∨ ∃ data versions,
          env.Download h (st.s_baseUrl ++ L "/" ++ st.s_versionFilename) = some data
          ∧ parseVersionFileDataW env.s2ws st.s_msFormat data = .ok versions
          ∧ ∀ v, mapFind self.m_exeName versions = some v →
              v.IsValid = false ∨ ResVersion.gt st.s_msFormat v self.m_version = false) :
    (checkForUpdatesThrd env st self h).outcome = .returned false
    ∧ List.countP Event.isCallback (checkForUpdatesThrd env st self h).events = 0 := by
  rcases hcase with hfail | ⟨data, versions, hfetch, hparse, hentry⟩
  · unfold checkForUpdatesThrd
    rw [if_neg (by simp [hrole])]
    simp only [hfail]
    exact ⟨trivial, rfl⟩
  · have hsorted := parseVersionFileDataW_sorted _ _ _ _ hparse
    rw [checkForUpdatesThrd_of_parsed env st self h data versions hrole hfetch hparse,
      findNewVer_eq versions self.m_exeName hsorted]
    cases hfind : mapFind self.m_exeName versions with
    | none =>
      have hd : ResVersion.default.IsValid = false := rfl
      simp only [hd, if_true]
      exact ⟨trivial, rfl⟩
    | some v =>
      by_cases hv : v.IsValid = false
      · simp only [hv, if_true]
        exact ⟨trivial, rfl⟩
      · rcases hentry v hfind with hinv | hgt
        · exact absurd hinv hv
        · simp only [if_neg hv, version_le_of_not_gt st.s_msFormat v self.m_version hgt, if_true]
          exact ⟨trivial, rfl⟩

/-- An instance of `checkForUpdatesThrd_no_update`: running 1.2.3.4, manifest 1.2.3.4 for
the executable's name, semantic ordering, the console callback registered. -/
theorem checkForUpdatesThrd_no_update_example :
    (({ launcherState with m_callback := some .Console } : State).m_isTemp = false
      ∧ ResVersion.gt false ⟨1, 2, 3, 4, true⟩ launcherState.m_version = false)
    ∧ (checkForUpdatesThrd (acceptingEnv "tool.exe\t1.2.3.4".toList) {}
          { launcherState with m_callback := some .Console } []).outcome = .returned false
    ∧ List.countP Event.isCallback
        (checkForUpdatesThrd (acceptingEnv "tool.exe\t1.2.3.4".toList) {}
          { launcherState with m_callback := some .Console } []).events = 0 :=
  ⟨⟨by decide, by decide⟩,
    checkForUpdatesThrd_no_update (acceptingEnv "tool.exe\t1.2.3.4".toList) {}
      { launcherState with m_callback := some .Console } [] (by decide)
      (Or.inr ⟨"tool.exe\t1.2.3.4".toList, [(L "tool.exe", ⟨1, 2, 3, 4, true⟩)],
        by decide, by decide, fun v hv => Or.inr (by
          have hv' : v = ⟨1, 2, 3, 4, true⟩ := by
            have e : mapFind ({ launcherState with m_callback := some .Console } : State).m_exeName
                [(L "tool.exe", (⟨1, 2, 3, 4, true⟩ : ResVersion))]
                = some ⟨1, 2, 3, 4, true⟩ := by decide
            rw [e] at hv
            exact (Option.some.inj hv).symm
          subst hv'
          decide)⟩)⟩

/-- The outcomes of `doUpdate`: it ends the process (with `exit(0)`) if and only if
the download, the copy to the staged path and the start of the staged file all succeeded.
A failed download is followed by no copy and no start, and false is returned; a copy that
returns false is followed by no start, and false is returned; a copy that raises is
followed by no start, and its error leaves `doUpdate`; a failed start is followed by no
`exit`, and false is returned. -/
theorem doUpdate_outcomes (env : Env) (st : Statics) (self : State) (h : List Event) :
    ((∃ c, (doUpdate env st self h).outcome = .exited c)
      ↔ (downloadAnswer env st self h = true ∧ copyAnswer env st self h = .ok true
          ∧ launchAnswer env st self h = true))
    ∧ (downloadAnswer env st self h = false →
        (doUpdate env st self h).events
          = [.DownloadFile (updateUrl st self) (tempExePath env self) false]
        ∧ (doUpdate env st self h).outcome = .returned false)
    ∧ (downloadAnswer env st self h = true → copyAnswer env st self h = .ok false →
        (doUpdate env st self h).events
          = [.DownloadFile (updateUrl st self) (tempExePath env self) true,
              .copyFile (tempExePath env self) (newExePath env self) true (.ok false)]
        ∧ (doUpdate env st self h).outcome = .returned false)
    ∧ (∀ e, downloadAnswer env st self h = true → copyAnswer env st self h = .error e →
        (doUpdate env st self h).events
          = [.DownloadFile (updateUrl st self) (tempExePath env self) true,
              .copyFile (tempExePath env self) (newExePath env self) true (.error e)]
        ∧ (doUpdate env st self h).outcome = .raised e)
    ∧ (downloadAnswer env st self h = true → copyAnswer env st self h = .ok true →
        launchAnswer env st self h = false →
        (doUpdate env st self h).events
          = [.DownloadFile (updateUrl st self) (tempExePath env self) true,
              .copyFile (tempExePath env self) (newExePath env self) true (.ok true),
              .CreateProcess (newExePath env self) false]
        ∧ (doUpdate env st self h).outcome = .returned false)
    ∧ (downloadAnswer env st self h = true → copyAnswer env st self h = .ok true →
        launchAnswer env st self h = true →
        (doUpdate env st self h).events
          = [.DownloadFile (updateUrl st self) (tempExePath env self) true,
              .copyFile (tempExePath env self) (newExePath env self) true (.ok true),
              .CreateProcess (newExePath env self) true, .exit 0]
        ∧ (doUpdate env st self h).outcome = .exited 0) := by
  refine ⟨?_, doUpdate_download_failed env st self h,
    doUpdate_copy_false env st self h, fun e => doUpdate_copy_raised env st self h e,
    doUpdate_launch_failed env st self h, doUpdate_all_succeeded env st self h⟩
  constructor
  · rintro ⟨c, hc⟩
    cases hdl : downloadAnswer env st self h with
    | false =>
      rw [(doUpdate_download_failed env st self h hdl).2] at hc
      cases hc
    | true =>
      cases hcp : copyAnswer env st self h with
      | error e =>
        rw [(doUpdate_copy_raised env st self h e hdl hcp).2] at hc
        cases hc
      | ok copied =>
        cases copied with
        | false =>
          rw [(doUpdate_copy_false env st self h hdl hcp).2] at hc
          cases hc
        | true =>
          cases hl : launchAnswer env st self h with
          | false =>
            rw [(doUpdate_launch_failed env st self h hdl hcp hl).2] at hc
            cases hc
          | true => exact ⟨rfl, rfl, rfl⟩
  · rintro ⟨hdl, hcp, hl⟩
    exact ⟨0, (doUpdate_all_succeeded env st self h hdl hcp hl).2⟩

/-- Instances of `doUpdate_outcomes`: in `acceptingEnv` everything succeeds and `doUpdate`
ends the process; in `copyRaisesEnv` the copy raises and no process is started. -/
theorem doUpdate_outcomes_example :
    ((downloadAnswer (acceptingEnv []) {} launcherState [] = true
        ∧ copyAnswer (acceptingEnv []) {} launcherState [] = .ok true
        ∧ launchAnswer (acceptingEnv []) {} launcherState [] = true)
      ∧ (doUpdate (acceptingEnv []) {} launcherState []).events
        = [.DownloadFile (updateUrl {} launcherState) (tempExePath (acceptingEnv []) launcherState)
            true,
          .copyFile (tempExePath (acceptingEnv []) launcherState)
            (newExePath (acceptingEnv []) launcherState) true (.ok true),
          .CreateProcess (newExePath (acceptingEnv []) launcherState) true, .exit 0]
      ∧ (doUpdate (acceptingEnv []) {} launcherState []).outcome = .exited 0)
    ∧ ((downloadAnswer copyRaisesEnv {} launcherState [] = true
        ∧ copyAnswer copyRaisesEnv {} launcherState [] = .error .filesystem_error)
      ∧ (doUpdate copyRaisesEnv {} launcherState []).events
        = [.DownloadFile (updateUrl {} launcherState) (tempExePath copyRaisesEnv launcherState)
            true,
          .copyFile (tempExePath copyRaisesEnv launcherState)
            (newExePath copyRaisesEnv launcherState) true (.error .filesystem_error)]
      ∧ (doUpdate copyRaisesEnv {} launcherState []).outcome = .raised .filesystem_error) :=
  ⟨⟨by decide,
      (doUpdate_outcomes (acceptingEnv []) {} launcherState []).2.2.2.2.2
        (by decide) (by decide) (by decide)⟩,
    ⟨by decide,
      (doUpdate_outcomes copyRaisesEnv {} launcherState []).2.2.2.1 .filesystem_error
        (by decide) (by decide)⟩⟩

/-- In the launcher role, if a leftover staged file `m_exePath\_U_m_exeName` exists when
the session is initialised, `init` tests for it and calls `remove` on it before anything
else; when that call returns, `replaceTempVersion` returns true, `init` returns with
`m_isTemp` false, and a check requested afterwards, with any callback registered, begins
with the manifest fetch. -/
theorem init_removes_leftover (env : Env) (st : Statics) (h h' : List Event) (p : ExePath)
    (r : Bool) (cb : Option UpdateType)
    (hpath : env.GetExecutablePath = .ok p)
    (hlauncher : List.isPrefixOf TEMP_PREFIX p.filename = false)
    (hexists : env.fsExists h (leftoverPath (initialState env st p)) = .ok true)
    (hremove : env.fsRemove (h ++ [.fsExists (leftoverPath (initialState env st p)) (.ok true)])
        (leftoverPath (initialState env st p)) = .ok r) :
    (init env st h).events
      = [.fsExists (leftoverPath (initialState env st p)) (.ok true),
          .fsRemove (leftoverPath (initialState env st p)) (.ok r)]
    ∧ (replaceTempVersion env (initialState env st p) h).outcome = .returned true
    ∧ (init env st h).outcome = .returned ()
    ∧ (init env st h).self.m_isTemp = false
    ∧ ∃ res rest,
        (checkForUpdatesThrd env st { (init env st h).self with m_callback := cb } h').events
          = .Download (manifestUrl st) res :: rest := by
  obtain ⟨hself, hevents, houtcome⟩ := init_eq env st h p hpath
  obtain ⟨hev, hout, hsame⟩ :=
    replaceTempVersion_launcher env (initialState env st p) h r hlauncher hexists hremove
  have htemp : (init env st h).self.m_isTemp = false := by
    rw [hself, hsame]
    rfl
  refine ⟨by rw [hevents, hev], hout, by rw [houtcome, hout]; rfl, htemp, ?_⟩
  exact checkForUpdatesThrd_fetches env st _ h' htemp

/-- An instance of `init_removes_leftover`: the launcher `C:\app\tool.exe` with a
removable leftover `C:\app\_U_tool.exe`, and a check with the console callback after
`init`. -/
theorem init_removes_leftover_example :
    (init leftoverEnv {} []).events
      = [.fsExists (leftoverPath (initialState leftoverEnv {}
            ⟨L "C:\\app\\tool.exe", L "C:\\app", L "tool.exe"⟩)) (.ok true),
          .fsRemove (leftoverPath (initialState leftoverEnv {}
            ⟨L "C:\\app\\tool.exe", L "C:\\app", L "tool.exe"⟩)) (.ok true)]
    ∧ (replaceTempVersion leftoverEnv (initialState leftoverEnv {}
        ⟨L "C:\\app\\tool.exe", L "C:\\app", L "tool.exe"⟩) []).outcome = .returned true
    ∧ (init leftoverEnv {} []).outcome = .returned ()
    ∧ (init leftoverEnv {} []).self.m_isTemp = false
    ∧ ∃ res rest,
        (checkForUpdatesThrd leftoverEnv {}
          { (init leftoverEnv {} []).self with m_callback := some .Console }
          (init leftoverEnv {} []).events).events
          = .Download (manifestUrl {}) res :: rest :=
  init_removes_leftover leftoverEnv {} [] (init leftoverEnv {} []).events
    ⟨L "C:\\app\\tool.exe", L "C:\\app", L "tool.exe"⟩ true (some .Console)
    (by decide) (by decide) (by decide) (by decide)

/-! ### The claims -/

/-- C1: for every pair of valid Versions and in both ordering modes, exactly one of
`a < b`, `a == b`, `a > b` is true. -/
theorem C1_trichotomy (s_msFormat : Bool) (a b : ResVersion)
    (_ha : a.IsValid = true) (_hb : b.IsValid = true) :
    (ResVersion.lt s_msFormat a b = true ∧ ResVersion.eq s_msFormat a b = false
        ∧ ResVersion.gt s_msFormat a b = false)
    ∨ (ResVersion.lt s_msFormat a b = false ∧ ResVersion.eq s_msFormat a b = true
        ∧ ResVersion.gt s_msFormat a b = false)
    ∨ (ResVersion.lt s_msFormat a b = false ∧ ResVersion.eq s_msFormat a b = false
        ∧ ResVersion.gt s_msFormat a b = true) := by
  rcases Nat.lt_trichotomy a.m_major b.m_major with h1 | h1 | h1 <;>
  rcases Nat.lt_trichotomy a.m_minor b.m_minor with h2 | h2 | h2 <;>
  rcases Nat.lt_trichotomy a.m_revision b.m_revision with h3 | h3 | h3 <;>
  rcases Nat.lt_trichotomy a.m_build b.m_build with h4 | h4 | h4 <;>
  cases s_msFormat <;>
  simp [ResVersion.lt, ResVersion.eq, ResVersion.gt, *, Nat.lt_asymm, Nat.ne_of_lt,
    Nat.ne_of_gt]

/-- Witness for C1 at the valid Versions 1.2.3.4 and 1.2.4.0 in semantic mode. -/
theorem C1_trichotomy_witness :
    (ResVersion.IsValid ⟨1, 2, 3, 4, true⟩ = true ∧ ResVersion.IsValid ⟨1, 2, 4, 0, true⟩ = true) ∧
    ((ResVersion.lt false ⟨1, 2, 3, 4, true⟩ ⟨1, 2, 4, 0, true⟩ = true
        ∧ ResVersion.eq false ⟨1, 2, 3, 4, true⟩ ⟨1, 2, 4, 0, true⟩ = false
        ∧ ResVersion.gt false ⟨1, 2, 3, 4, true⟩ ⟨1, 2, 4, 0, true⟩ = false)
    ∨ (ResVersion.lt false ⟨1, 2, 3, 4, true⟩ ⟨1, 2, 4, 0, true⟩ = false
        ∧ ResVersion.eq false ⟨1, 2, 3, 4, true⟩ ⟨1, 2, 4, 0, true⟩ = true
        ∧ ResVersion.gt false ⟨1, 2, 3, 4, true⟩ ⟨1, 2, 4, 0, true⟩ = false)
    ∨ (ResVersion.lt false ⟨1, 2, 3, 4, true⟩ ⟨1, 2, 4, 0, true⟩ = false
        ∧ ResVersion.eq false ⟨1, 2, 3, 4, true⟩ ⟨1, 2, 4, 0, true⟩ = false
        ∧ ResVersion.gt false ⟨1, 2, 3, 4, true⟩ ⟨1, 2, 4, 0, true⟩ = true)) :=
  ⟨⟨rfl, rfl⟩, C1_trichotomy false ⟨1, 2, 3, 4, true⟩ ⟨1, 2, 4, 0, true⟩ rfl rfl⟩

/-- C2 fails in semantic mode: the valid Version 1.2.3.4 is formatted at precision 4
as `1.2.3 Build #4`, which parses to the valid Version 1.2.3.0, not `==` to 1.2.3.4. -/
theorem C2_roundtrip_counterexample :
    ResVersion.IsValid ⟨1, 2, 3, 4, true⟩ = true
    ∧ ResVersion.InRange ⟨1, 2, 3, 4, true⟩
    ∧ ResVersion.toString false ⟨1, 2, 3, 4, true⟩ 4 = .ok "1.2.3 Build #4".toList
    ∧ ResVersion.ofString false "1.2.3 Build #4".toList = .ok ⟨1, 2, 3, 0, true⟩
    ∧ ResVersion.eq false ⟨1, 2, 3, 0, true⟩ ⟨1, 2, 3, 4, true⟩ = false := by
  decide

/-- C2, as the code has it: for every valid Version `v` with components in the 16-bit
range, `v.ToString(4)` parses to a valid Version with the major, minor and revision of
`v`; its build is that of `v` in platform mode and 0 in semantic mode (the text after
the revision, ` Build #<build>`, is not read back), so the parsed Version is `== v`
exactly when the mode is platform or the build of `v` is 0. -/
theorem C2_roundtrip_amended (s_msFormat : Bool) (v : ResVersion)
    (hv : v.IsValid = true) (hr : v.InRange) :
    ∃ s w, ResVersion.toString s_msFormat v 4 = .ok s ∧ ResVersion.ofString s_msFormat s = .ok w
      ∧ w.IsValid = true
      ∧ w.m_major = v.m_major ∧ w.m_minor = v.m_minor ∧ w.m_revision = v.m_revision
      ∧ w.m_build = (if s_msFormat then v.m_build else 0)
      ∧ (ResVersion.eq s_msFormat w v = true ↔ (s_msFormat = true ∨ v.m_build = 0)) := by
  obtain ⟨h1, h2, h3, h4⟩ := hr
  cases s_msFormat with
  | true =>
    refine ⟨_, v, rfl, ?_, hv, rfl, rfl, rfl, rfl, by simp [ResVersion.eq]⟩
    unfold ResVersion.ofString
    rw [Split_four _ _ _ _ (fmt_no_dot _) (fmt_no_dot _) (fmt_no_dot _) (fmt_no_dot _)]
    simp only [stoi_fmt_nil _ h1, stoi_fmt_nil _ h2, stoi_fmt_nil _ h3, stoi_fmt_nil _ h4,
      toUInt16_natCast _ h1, toUInt16_natCast _ h2, toUInt16_natCast _ h3,
      toUInt16_natCast _ h4]
    cases v
    simp_all [ResVersion.swapIfMs, ResVersion.IsValid, bind, Except.bind, pure, Except.pure, toUInt16_natCast]
  | false =>
    refine ⟨_, ⟨v.m_major, v.m_minor, v.m_revision, 0, true⟩, rfl, ?_, rfl, rfl, rfl, rfl,
      rfl, ⟨fun h => Or.inr (by simp [ResVersion.eq] at h; exact h.symm),
        fun h => by rcases h with h | h <;> simp_all [ResVersion.eq]⟩⟩
    unfold ResVersion.ofString
    have hlabel : '.' ∉ fmt v.m_revision ++ " Build #".toList ++ fmt v.m_build := by
      intro h
      rcases List.mem_append.mp h with h | h
      · rcases List.mem_append.mp h with h | h
        · exact fmt_no_dot _ h
        · exact absurd h (by decide)
      · exact fmt_no_dot _ h
    have e : fmt v.m_major ++ ['.'] ++ fmt v.m_minor ++ ['.'] ++ fmt v.m_revision
          ++ " Build #".toList ++ fmt v.m_build
        = fmt v.m_major ++ ['.'] ++ fmt v.m_minor ++ ['.']
          ++ (fmt v.m_revision ++ " Build #".toList ++ fmt v.m_build) := by
      simp
    rw [e, Split_three _ _ _ (fmt_no_dot _) (fmt_no_dot _) hlabel]
    have h3' : stoi (fmt v.m_revision ++ " Build #".toList ++ fmt v.m_build)
        = .ok (v.m_revision : Int) := by
      rw [List.append_assoc]
      have hl : " Build #".toList ++ fmt v.m_build
          = ' ' :: ("Build #".toList ++ fmt v.m_build) := rfl
      rw [hl]
      refine stoi_fmt _ _ (by omega) ?_
      intro c hc
      rw [List.head?_cons, Option.some.injEq] at hc
      subst hc
      decide
    simp only [stoi_fmt_nil _ h1, stoi_fmt_nil _ h2, h3',
      toUInt16_natCast _ h1, toUInt16_natCast _ h2, toUInt16_natCast _ h3]
    simp [ResVersion.swapIfMs, ResVersion.IsValid, bind, Except.bind, pure, Except.pure, toUInt16_natCast, h1, h2, h3]


/-- Witness for C2 (amended) at the valid Version 7.8.9.10 in platform mode. -/
theorem C2_roundtrip_amended_witness :
    (ResVersion.IsValid ⟨7, 8, 9, 10, true⟩ = true ∧ ResVersion.InRange ⟨7, 8, 9, 10, true⟩) ∧
    ∃ s w, ResVersion.toString true ⟨7, 8, 9, 10, true⟩ 4 = .ok s
      ∧ ResVersion.ofString true s = .ok w
      ∧ w.IsValid = true
      ∧ w.m_major = 7 ∧ w.m_minor = 8 ∧ w.m_revision = 9
      ∧ w.m_build = (if true = true then 10 else 0)
      ∧ (ResVersion.eq true w ⟨7, 8, 9, 10, true⟩ = true ↔ (true = true ∨ 10 = 0)) :=
  ⟨⟨rfl, by decide⟩, C2_roundtrip_amended true ⟨7, 8, 9, 10, true⟩ rfl (by decide)⟩

/-- C3 fails for non-numeric components: `1.2.x` has three components, the third not
a decimal number, and the constructor raises `std::invalid_argument`; `1.2.3x` has a
third component that is not a decimal number either, and the constructor returns the
valid Version 1.2.3.0. -/
theorem C3_malformed_counterexample :
    (ResVersion.componentCount "1.2.x".toList = 3
      ∧ ResVersion.isDecimalNumber "x".toList = false
      ∧ ResVersion.ofString false "1.2.x".toList = .error .invalid_argument)
    ∧ (ResVersion.componentCount "1.2.3x".toList = 3
      ∧ ResVersion.isDecimalNumber "3x".toList = false
      ∧ ResVersion.ofString false "1.2.3x".toList = .ok ⟨1, 2, 3, 0, true⟩) := by
  decide

/-- C3, as the code has it: when the number of `.`-separated components of the input
is neither 3 nor 4, the string constructor does not raise and returns a Version whose
`IsValid()` is false; when it is 3 or 4 and `std::stoi` accepts every component (each
begins, after optional white space and sign, with a decimal digit and its value fits an
`int`), the constructor returns a valid Version, whether or not the components are
decimal numbers. -/
theorem C3_malformed_amended (s_msFormat : Bool) (verStr : List Char) :
    ((ResVersion.componentCount verStr ≠ 3 ∧ ResVersion.componentCount verStr ≠ 4) →
      ∃ v, ResVersion.ofString s_msFormat verStr = .ok v ∧ v.IsValid = false)
    ∧ ((ResVersion.componentCount verStr = 3 ∨ ResVersion.componentCount verStr = 4) →
      (∀ p ∈ Split verStr ['.'], ∃ n, stoi p = .ok n) →
      ∃ v, ResVersion.ofString s_msFormat verStr = .ok v ∧ v.IsValid = true) := by
  have hlen := Split_length '.' verStr
  unfold ResVersion.componentCount
  rw [← hlen]
  unfold ResVersion.ofString
  generalize Split verStr ['.'] = parts
  match parts with
  | [] => simp [ResVersion.IsValid, pure, Except.pure]
  | [_] => simp [ResVersion.IsValid, pure, Except.pure]
  | [_, _] => simp [ResVersion.IsValid, pure, Except.pure]
  | [p0, p1, p2] =>
    refine ⟨by simp, fun _ hp => ?_⟩
    obtain ⟨n0, h0⟩ := hp p0 (by simp)
    obtain ⟨n1, h1⟩ := hp p1 (by simp)
    obtain ⟨n2, h2⟩ := hp p2 (by simp)
    cases s_msFormat <;>
      simp [h0, h1, h2, ResVersion.swapIfMs, ResVersion.IsValid, bind, Except.bind, pure,
        Except.pure]
  | [p0, p1, p2, p3] =>
    refine ⟨by simp, fun _ hp => ?_⟩
    obtain ⟨n0, h0⟩ := hp p0 (by simp)
    obtain ⟨n1, h1⟩ := hp p1 (by simp)
    obtain ⟨n2, h2⟩ := hp p2 (by simp)
    obtain ⟨n3, h3⟩ := hp p3 (by simp)
    cases s_msFormat <;>
      simp [h0, h1, h2, h3, ResVersion.swapIfMs, ResVersion.IsValid, bind, Except.bind, pure,
        Except.pure]
  | _ :: _ :: _ :: _ :: _ :: _ => simp [ResVersion.IsValid, pure, Except.pure]

/-- Witness for C3 (amended): `1.2` has two components and yields an invalid Version;
`1.2.3x` has three components that `std::stoi` accepts and yields a valid Version. -/
theorem C3_malformed_amended_witness :
    ((ResVersion.componentCount "1.2".toList ≠ 3 ∧ ResVersion.componentCount "1.2".toList ≠ 4)
      ∧ ∃ v, ResVersion.ofString false "1.2".toList = .ok v ∧ v.IsValid = false)
    ∧ ((ResVersion.componentCount "1.2.3x".toList = 3
          ∨ ResVersion.componentCount "1.2.3x".toList = 4)
      ∧ (∀ p ∈ Split "1.2.3x".toList ['.'], ∃ n, stoi p = .ok n)
      ∧ ∃ v, ResVersion.ofString false "1.2.3x".toList = .ok v ∧ v.IsValid = true) :=
  have h1 : ResVersion.componentCount "1.2".toList ≠ 3
      ∧ ResVersion.componentCount "1.2".toList ≠ 4 := by decide
  have h2 : ResVersion.componentCount "1.2.3x".toList = 3
      ∨ ResVersion.componentCount "1.2.3x".toList = 4 := by decide
  have h3 : ∀ p ∈ Split "1.2.3x".toList ['.'], ∃ n, stoi p = .ok n := by
    have e : Split "1.2.3x".toList ['.'] = ["1".toList, "2".toList, "3x".toList] := by decide
    rw [e]
    intro p hp
    simp only [List.mem_cons, List.mem_singleton, List.not_mem_nil, or_false] at hp
    rcases hp with rfl | rfl | rfl
    · exact ⟨1, by decide⟩
    · exact ⟨2, by decide⟩
    · exact ⟨3, by decide⟩
  ⟨⟨h1, (C3_malformed_amended false "1.2".toList).1 h1⟩,
    ⟨h2, h3, (C3_malformed_amended false "1.2.3x".toList).2 h2 h3⟩⟩

/-- C4 fails in three ways. A line with a non-numeric version of three components makes
the parser raise `std::invalid_argument`, and the valid line before it is lost with the
whole mapping; the version string `1.2.3x`, whose third component is not a decimal
number, contributes the entry 1.2.3.0; of two valid lines with the same name only the
later one is in the mapping. -/
theorem C4_manifest_counterexample :
    SelfUpdater.parseVersionFileData false "a\t1.2.3.4\nb\tx.y.z".toList
        = .error .invalid_argument
    ∧ (ResVersion.isDecimalNumber "3x".toList = false
      ∧ SelfUpdater.parseVersionFileData false "a\t1.2.3x".toList
        = .ok [("a".toList, ⟨1, 2, 3, 0, true⟩)])
    ∧ SelfUpdater.parseVersionFileData false "a\t1.0.0\na\t2.0.0".toList
        = .ok [("a".toList, ⟨2, 0, 0, 0, true⟩)] := by
  decide

/-- C4, as the code has it: when no version string of a two-field line makes the
`ResVersion` constructor raise, `parseVersionFileData` returns a mapping, and the mapping
holds Version `v` for `name` exactly when `v` is the Version of the last line of the form
`name<TAB>version` whose version string has 3 or 4 components and parses to a valid
Version. A version string with another component count contributes no entry, and a valid
line is in the mapping with its Version unless a later valid line has the same name. -/
theorem C4_manifest_amended (s_msFormat : Bool) (data : List Char)
    (hparse : ∀ l ∈ Split data ['\n'], SelfUpdater.lineParses s_msFormat l = true) :
    ∃ versions, SelfUpdater.parseVersionFileData s_msFormat data = .ok versions ∧
      ∀ name v, SelfUpdater.mapFind name versions = some v ↔
        ∃ pre l post verStr, Split data ['\n'] = pre ++ l :: post
          ∧ Split l ['\t'] = [name, verStr]
          ∧ (ResVersion.componentCount verStr = 3 ∨ ResVersion.componentCount verStr = 4)
          ∧ ResVersion.ofString s_msFormat verStr = .ok v ∧ v.IsValid = true
          ∧ ∀ l' ∈ post, ∀ verStr' v', Split l' ['\t'] = [name, verStr'] →
              ResVersion.ofString s_msFormat verStr' = .ok v' → v'.IsValid = false := by
  obtain ⟨m, hm, hfind⟩ := parseLines_spec s_msFormat (Split data ['\n']) [] hparse
  refine ⟨m, hm, fun name v => ?_⟩
  rw [hfind name]
  have hsimp : (match SelfUpdater.lastEntry s_msFormat name (Split data ['\n']) with
      | some v => some v
      | none => SelfUpdater.mapFind name ([] : SelfUpdater.VerMap))
      = SelfUpdater.lastEntry s_msFormat name (Split data ['\n']) := by
    cases SelfUpdater.lastEntry s_msFormat name (Split data ['\n']) <;> rfl
  rw [hsimp, lastEntry_eq_some_iff]
  constructor
  · rintro ⟨pre, l, post, h1, h2, h3⟩
    obtain ⟨verStr, g1, g2, g3⟩ := (lineEntry_eq_some_iff s_msFormat l name v).mp h2
    refine ⟨pre, l, post, verStr, h1, g1, ofString_valid_count s_msFormat verStr v g2 g3,
      g2, g3, ?_⟩
    intro l' hl' verStr' v' k1 k2
    by_contra k3
    exact h3 l' hl' v'
      ((lineEntry_eq_some_iff s_msFormat l' name v').mpr ⟨verStr', k1, k2, by simpa using k3⟩)
  · rintro ⟨pre, l, post, verStr, h1, g1, _, g2, g3, h3⟩
    refine ⟨pre, l, post, h1,
      (lineEntry_eq_some_iff s_msFormat l name v).mpr ⟨verStr, g1, g2, g3⟩, ?_⟩
    intro l' hl' v' he
    obtain ⟨verStr', k1, k2, k3⟩ := (lineEntry_eq_some_iff s_msFormat l' name v').mp he
    have := h3 l' hl' verStr' v' k1 k2
    rw [k3] at this
    exact absurd this (by decide)

/-- Witness for C4 (amended): a manifest of four lines, one of them with a two-component
version and two of them for the same name. -/
theorem C4_manifest_amended_witness :
    (∀ l ∈ Split "b\t1.2.3.4\nbad\t1.2\na\t2.0.0\nb\t3.0.0.1".toList ['\n'],
        SelfUpdater.lineParses false l = true)
    ∧ ∃ versions, SelfUpdater.parseVersionFileData false
          "b\t1.2.3.4\nbad\t1.2\na\t2.0.0\nb\t3.0.0.1".toList = .ok versions ∧
      ∀ name v, SelfUpdater.mapFind name versions = some v ↔
        ∃ pre l post verStr,
          Split "b\t1.2.3.4\nbad\t1.2\na\t2.0.0\nb\t3.0.0.1".toList ['\n'] = pre ++ l :: post
          ∧ Split l ['\t'] = [name, verStr]
          ∧ (ResVersion.componentCount verStr = 3 ∨ ResVersion.componentCount verStr = 4)
          ∧ ResVersion.ofString false verStr = .ok v ∧ v.IsValid = true
          ∧ ∀ l' ∈ post, ∀ verStr' v', Split l' ['\t'] = [name, verStr'] →
              ResVersion.ofString false verStr' = .ok v' → v'.IsValid = false :=
  ⟨by decide, C4_manifest_amended false _ (by decide)⟩

/-- C5: `a < b` holds exactly when the tuple of `a` is lexicographically smaller than
the tuple of `b`, the tuple being `(major, minor, build, revision)` in platform mode
and `(major, minor, revision, build)` in semantic mode; `a > b` is the same relation
with the arguments swapped. -/
theorem C5_lt_gt_lexicographic (s_msFormat : Bool) (a b : ResVersion) :
    (ResVersion.lt s_msFormat a b = true
        ↔ ResVersion.specTuple s_msFormat a < ResVersion.specTuple s_msFormat b)
    ∧ (ResVersion.gt s_msFormat a b = true
        ↔ ResVersion.specTuple s_msFormat b < ResVersion.specTuple s_msFormat a) := by
  rcases Nat.lt_trichotomy a.m_major b.m_major with h1 | h1 | h1 <;>
  rcases Nat.lt_trichotomy a.m_minor b.m_minor with h2 | h2 | h2 <;>
  rcases Nat.lt_trichotomy a.m_revision b.m_revision with h3 | h3 | h3 <;>
  rcases Nat.lt_trichotomy a.m_build b.m_build with h4 | h4 | h4 <;>
  cases s_msFormat <;>
  simp [ResVersion.lt, ResVersion.gt, ResVersion.specTuple, Prod.Lex.lt_iff, *,
    Nat.lt_asymm, Nat.ne_of_lt, Nat.ne_of_gt]

/-- C6 fails when the callback does not return: with the console callback registered,
running version 1.2.3.4, manifest version 1.2.4.0 (semantic ordering) and a user who
accepts, the callback is invoked once, `DoUpdate` inside it downloads, stages and starts
the new binary and calls `exit(0)`: the check ends the process and never returns true. -/
theorem C6_update_available_counterexample :
    ({ launcherState with m_callback := some .Console } : State).m_isTemp = false
    ∧ (acceptingEnv "tool.exe\t1.2.4.0".toList).Download [] (L "/versions.txt")
        = some "tool.exe\t1.2.4.0".toList
    ∧ parseVersionFileDataW (acceptingEnv "tool.exe\t1.2.4.0".toList).s2ws false
        "tool.exe\t1.2.4.0".toList = .ok [(L "tool.exe", ⟨1, 2, 4, 0, true⟩)]
    ∧ ResVersion.gt false ⟨1, 2, 4, 0, true⟩ launcherState.m_version = true
    ∧ (checkForUpdatesThrd (acceptingEnv "tool.exe\t1.2.4.0".toList) {}
        { launcherState with m_callback := some .Console } []).events
      = [.Download (L "/versions.txt") true, .callback .Console, .getline "y".toList,
          .DownloadFile (L "/tool.exe") (L "C:\\Temp\\_U_tool.exe") true,
          .copyFile (L "C:\\Temp\\_U_tool.exe") (L "C:\\app\\_U_tool.exe") true (.ok true),
          .CreateProcess (L "C:\\app\\_U_tool.exe") true, .exit 0]
    ∧ (checkForUpdatesThrd (acceptingEnv "tool.exe\t1.2.4.0".toList) {}
        { launcherState with m_callback := some .Console } []).outcome = .exited 0 := by
  decide

/-- C6, as the code has it: for a launcher-role process with a callback registered, when
the manifest fetch succeeds and the parsed manifest holds for the executable's own name a
valid Version strictly greater than the running one, `checkForUpdatesThrd` fetches the
manifest once and invokes the callback exactly once; it returns true when the callback
returns, and ends with the process when the callback ends the process. -/
theorem C6_update_available_amended (env : Env) (st : Statics) (self : State)
    (h : List Event) (data : List Char) (versions : VerMapW) (v : ResVersion)
    (cb : UpdateType)
    (hrole : self.m_isTemp = false) (hcb : self.m_callback = some cb)
    (hfetch : env.Download h (st.s_baseUrl ++ L "/" ++ st.s_versionFilename) = some data)
    (hparse : parseVersionFileDataW env.s2ws st.s_msFormat data = .ok versions)
    (hentry : mapFind self.m_exeName versions = some v)
    (hvalid : v.IsValid = true)
    (hgt : ResVersion.gt st.s_msFormat v self.m_version = true) :
    (checkForUpdatesThrd env st self h).events
      = [.Download (st.s_baseUrl ++ L "/" ++ st.s_versionFilename) true, .callback cb]
        ++ (invokeCallback env st self
            (h ++ [.Download (st.s_baseUrl ++ L "/" ++ st.s_versionFilename) true,
              .callback cb]) cb).events
    ∧ List.countP Event.isCallback (checkForUpdatesThrd env st self h).events = 1
    ∧ ((invokeCallback env st self
            (h ++ [.Download (st.s_baseUrl ++ L "/" ++ st.s_versionFilename) true,
              .callback cb]) cb).outcome = .returned ()
        → (checkForUpdatesThrd env st self h).outcome = .returned true)
    ∧ (∀ c, (invokeCallback env st self
            (h ++ [.Download (st.s_baseUrl ++ L "/" ++ st.s_versionFilename) true,
              .callback cb]) cb).outcome = .exited c
        → (checkForUpdatesThrd env st self h).outcome = .exited c) := by
  have hsorted := parseVersionFileDataW_sorted _ _ _ _ hparse
  have hnew : findNewVer versions self.m_exeName = v := by
    rw [findNewVer_eq versions self.m_exeName hsorted, hentry]
  have hle := version_not_le_of_gt st.s_msFormat v self.m_version hgt
  have hcheck := checkForUpdatesThrd_of_parsed env st self h data versions hrole hfetch hparse
  rw [hnew, if_neg (by simp [hvalid]), if_neg (by simp [hle]), hcb] at hcheck
  simp only [List.singleton_append, List.cons_append, List.nil_append] at hcheck
  rw [hcheck]
  refine ⟨rfl, ?_, ?_, ?_⟩
  · simp only [List.countP_cons, Event.isCallback]
    rw [countP_eq_zero_of_forall _ _ (invokeCallback_no_callback env st self _ cb)]
    rfl
  · intro hret
    simp only [hret]
  · intro c hex
    simp only [hex]

/-- Witness for C6 (amended): running 1.2.3.4, manifest 1.2.4.0, semantic ordering, a
caller-supplied callback that returns. -/
theorem C6_update_available_amended_witness :
    List.countP Event.isCallback
        (checkForUpdatesThrd (acceptingEnv "tool.exe\t1.2.4.0".toList) {}
          { launcherState with m_callback := some .Custom } []).events = 1
    ∧ (checkForUpdatesThrd (acceptingEnv "tool.exe\t1.2.4.0".toList) {}
          { launcherState with m_callback := some .Custom } []).outcome = .returned true :=
  have w := C6_update_available_amended (acceptingEnv "tool.exe\t1.2.4.0".toList) {}
    { launcherState with m_callback := some .Custom } [] "tool.exe\t1.2.4.0".toList
    [(L "tool.exe", ⟨1, 2, 4, 0, true⟩)] ⟨1, 2, 4, 0, true⟩ .Custom
    (by decide) (by decide) (by decide) (by decide) (by decide) (by decide) (by decide)
  ⟨w.2.1, w.2.2.1 (by decide)⟩

/-- C7 does not hold on the code when a version string of the manifest makes `std::stoi`
raise. The launcher `tool.exe` runs 1.2.3.4 and the manifest is fetched. With the manifest
`tool.exe<TAB>1.2.3.4`, `other<TAB>x.y.z` the Version for the executable's name is equal to
the running one; with `other<TAB>x.y.z` the name is absent; with `tool.exe<TAB>x.y.z` the
name has no valid entry. In all three `checkForUpdatesThrd` does not return false:
`std::invalid_argument` leaves it (the callback is not invoked). -/
theorem C7_no_update_failing_input :
    (({ launcherState with m_callback := some .Console } : State).m_isTemp = false
      ∧ ({ launcherState with m_callback := some .Console } : State).m_exeName = L "tool.exe"
      ∧ ({ launcherState with m_callback := some .Console } : State).m_version
          = ⟨1, 2, 3, 4, true⟩)
    ∧ (parseVersionFileData false "tool.exe\t1.2.3.4\nother\tx.y.z".toList
          = .error .invalid_argument
      ∧ (checkForUpdatesThrd (acceptingEnv "tool.exe\t1.2.3.4\nother\tx.y.z".toList) {}
          { launcherState with m_callback := some .Console } []).events
          = [.Download (manifestUrl {}) true]
      ∧ (checkForUpdatesThrd (acceptingEnv "tool.exe\t1.2.3.4\nother\tx.y.z".toList) {}
          { launcherState with m_callback := some .Console } []).outcome
          = .raised .invalid_argument)
    ∧ (parseVersionFileData false "other\tx.y.z".toList = .error .invalid_argument
      ∧ (checkForUpdatesThrd (acceptingEnv "other\tx.y.z".toList) {}
          { launcherState with m_callback := some .Console } []).outcome
          = .raised .invalid_argument)
    ∧ (parseVersionFileData false "tool.exe\tx.y.z".toList = .error .invalid_argument
      ∧ (checkForUpdatesThrd (acceptingEnv "tool.exe\tx.y.z".toList) {}
          { launcherState with m_callback := some .Console } []).outcome
          = .raised .invalid_argument) := by
  decide

/-- C9: in the staged role, if the retry loop ends without an exception with a removal
of the target file that succeeded, and the copy and the process start succeed, then the
events of `replaceTempVersion` are, in this order: the pause, the steps of the retry loop
(among them the successful removal of the target), the copy of the process's own image
file onto the target path, the start of a process at the target path, and `exit(0)`. -/
theorem C9_staged_install_order (env : Env) (self : State) (h el : List Event)
    (hstaged : List.isPrefixOf TEMP_PREFIX self.m_exeName = true)
    (hloop : removeLoop env (realPath self) 5 (h ++ [.sleep_for 100]) = (el, none))
    (hdel : Event.fsRemove (realPath self) (.ok true) ∈ el)
    (hcopy : env.copyFile (h ++ ([.sleep_for 100] ++ el)) self.m_fullExePath
        (realPath self) false = .ok true)
    (hexec : env.CreateProcess
        (h ++ ([.sleep_for 100] ++ el
          ++ [.copyFile self.m_fullExePath (realPath self) false (.ok true)]))
        (realPath self) = true) :
    (replaceTempVersion env self h).events
      = [.sleep_for 100] ++ el
        ++ [.copyFile self.m_fullExePath (realPath self) false (.ok true),
            .CreateProcess (realPath self) true, .exit 0]
    ∧ (replaceTempVersion env self h).outcome = .exited 0
    ∧ Event.fsRemove (realPath self) (.ok true) ∈ el
    ∧ (∀ e ∈ el, e.isRetryStep (realPath self) = true
        ∧ e.isCopyFile = false ∧ e.isCreateProcess = false ∧ e.isExit = false) := by
  have hsteps := removeLoop_steps env (realPath self) 5 (h ++ [.sleep_for 100])
  rw [hloop] at hsteps
  rw [replaceTempVersion_staged env self h hstaged, hloop]
  simp only [hcopy, hexec, if_true]
  refine ⟨by simp, by simp, hdel, fun e he => ⟨hsteps e he, retryStep_kinds _ e (hsteps e he)⟩⟩

/-- Witness for C9: the spec's case, the staged copy `C:\app\_U_tool.exe` whose target
`C:\app\tool.exe` is removed on the first attempt. -/
theorem C9_staged_install_order_witness :
    (replaceTempVersion (acceptingEnv []) stagedState []).events
      = [.sleep_for 100,
          .fsExists (L "C:\\app\\tool.exe") (.ok true),
          .fsRemove (L "C:\\app\\tool.exe") (.ok true),
          .fsExists (L "C:\\app\\tool.exe") (.ok false),
          .fsExists (L "C:\\app\\tool.exe") (.ok false),
          .fsExists (L "C:\\app\\tool.exe") (.ok false),
          .fsExists (L "C:\\app\\tool.exe") (.ok false),
          .copyFile (L "C:\\app\\_U_tool.exe") (L "C:\\app\\tool.exe") false (.ok true),
          .CreateProcess (L "C:\\app\\tool.exe") true, .exit 0]
    ∧ (replaceTempVersion (acceptingEnv []) stagedState []).outcome = .exited 0 :=
  have w := C9_staged_install_order (acceptingEnv []) stagedState []
    [.fsExists (L "C:\\app\\tool.exe") (.ok true),
      .fsRemove (L "C:\\app\\tool.exe") (.ok true),
      .fsExists (L "C:\\app\\tool.exe") (.ok false),
      .fsExists (L "C:\\app\\tool.exe") (.ok false),
      .fsExists (L "C:\\app\\tool.exe") (.ok false),
      .fsExists (L "C:\\app\\tool.exe") (.ok false)]
    (by decide) (by decide) (by decide) (by decide) (by decide)
  ⟨w.1, w.2.1⟩

/-- C10 fails in its last part: for a staged copy the check returns true, whereas a
check that found no update (fetch failed, or manifest version 1.2.3.4 equal to the
running one) returns false. -/
theorem C10_staged_check_counterexample :
    ({ stagedState with m_isTemp := true } : State).m_isTemp = true
    ∧ (checkForUpdatesThrd (acceptingEnv "_U_tool.exe\t9.0.0.0".toList) {}
        { stagedState with m_isTemp := true } []).outcome = .returned true
    ∧ (checkForUpdatesThrd offlineEnv {} launcherState []).outcome = .returned false
    ∧ (checkForUpdatesThrd (acceptingEnv "tool.exe\t1.2.3.4".toList) {}
        launcherState []).outcome = .returned false := by
  decide

/-- C10, as the code has it: when the process is a staged copy (`m_isTemp` set),
`checkForUpdatesThrd` makes no call at all (no manifest fetch, no callback), leaves the
object as it is, and returns true. -/
theorem C10_staged_check_amended (env : Env) (st : Statics) (self : State) (h : List Event)
    (hstaged : self.m_isTemp = true) :
    (checkForUpdatesThrd env st self h).events = []
    ∧ (checkForUpdatesThrd env st self h).outcome = .returned true
    ∧ (checkForUpdatesThrd env st self h).self = self := by
  unfold checkForUpdatesThrd
  rw [if_pos hstaged]
  exact ⟨rfl, rfl, rfl⟩

/-- Witness for C10 (amended): the staged copy `_U_tool.exe`, with a manifest that holds
a greater version for its name. -/
theorem C10_staged_check_amended_witness :
    ({ stagedState with m_isTemp := true } : State).m_isTemp = true
    ∧ (checkForUpdatesThrd (acceptingEnv "_U_tool.exe\t9.0.0.0".toList) {}
        { stagedState with m_isTemp := true } []).events = []
    ∧ (checkForUpdatesThrd (acceptingEnv "_U_tool.exe\t9.0.0.0".toList) {}
        { stagedState with m_isTemp := true } []).outcome = .returned true
    ∧ (checkForUpdatesThrd (acceptingEnv "_U_tool.exe\t9.0.0.0".toList) {}
        { stagedState with m_isTemp := true } []).self = { stagedState with m_isTemp := true } :=
  ⟨rfl, C10_staged_check_amended (acceptingEnv "_U_tool.exe\t9.0.0.0".toList) {}
    { stagedState with m_isTemp := true } [] rfl⟩

/-- C11 does not hold on the code when the copy raises: with the download done and
`copy_file` raising `filesystem_error`, `doUpdate` starts no process and does not call
`exit`, but it does not return false either: the error leaves `doUpdate`. -/
theorem C11_doUpdate_failing_input :
    downloadAnswer copyRaisesEnv {} launcherState [] = true
    ∧ copyAnswer copyRaisesEnv {} launcherState [] = .error .filesystem_error
    ∧ (doUpdate copyRaisesEnv {} launcherState []).events
      = [.DownloadFile (L "/tool.exe") (L "C:\\Temp\\_U_tool.exe") true,
          .copyFile (L "C:\\Temp\\_U_tool.exe") (L "C:\\app\\_U_tool.exe") true
            (.error .filesystem_error)]
    ∧ (doUpdate copyRaisesEnv {} launcherState []).outcome = .raised .filesystem_error
    ∧ (doUpdate copyRaisesEnv {} launcherState []).outcome ≠ .returned false := by
  decide

/-- C12 does not hold on the code when the removal raises: for the launcher
`C:\app\tool.exe` with a leftover `C:\app\_U_tool.exe` that exists and is locked, `remove`
raises `filesystem_error`; the file is not deleted, `replaceTempVersion` does not return
true and the error leaves `init`. -/
theorem C12_leftover_failing_input :
    lockedLeftoverEnv.GetExecutablePath
      = .ok ⟨L "C:\\app\\tool.exe", L "C:\\app", L "tool.exe"⟩
    ∧ List.isPrefixOf TEMP_PREFIX (L "tool.exe") = false
    ∧ lockedLeftoverEnv.fsExists [] (L "C:\\app\\_U_tool.exe") = .ok true
    ∧ (init lockedLeftoverEnv {} []).events
      = [.fsExists (L "C:\\app\\_U_tool.exe") (.ok true),
          .fsRemove (L "C:\\app\\_U_tool.exe") (.error .filesystem_error)]
    ∧ (replaceTempVersion lockedLeftoverEnv
        (initialState lockedLeftoverEnv {} ⟨L "C:\\app\\tool.exe", L "C:\\app", L "tool.exe"⟩)
        []).outcome = .raised .filesystem_error
    ∧ (init lockedLeftoverEnv {} []).outcome = .raised .filesystem_error := by
  decide

/-- C13 fails in platform mode: `1.2.3` parses to a valid Version whose `GetBuild()` is 3
(and whose `GetRevision()` is 0), because the constructor swaps build and revision when
`s_msFormat` is set. -/
theorem C13_three_components_counterexample :
    ResVersion.componentCount "1.2.3".toList = 3
    ∧ ResVersion.ofString true "1.2.3".toList = .ok ⟨1, 2, 0, 3, true⟩
    ∧ ResVersion.GetBuild ⟨1, 2, 0, 3, true⟩ = 3
    ∧ ResVersion.GetRevision ⟨1, 2, 0, 3, true⟩ = 0 := by
  decide

/-- C13, as the code has it: for every 3-component string `a.b.c` whose components are
decimal numerals of value at most 65535, the string constructor yields a valid Version
with major `a` and minor `b`; in semantic mode its revision is `c` and its build is 0, in
platform mode its build is `c` and its revision is 0. -/
theorem C13_three_components_amended (s_msFormat : Bool) (p0 p1 p2 : List Char)
    (h0 : ResVersion.isDecimalNumber p0 = true) (h1 : ResVersion.isDecimalNumber p1 = true)
    (h2 : ResVersion.isDecimalNumber p2 = true)
    (v0 : digitsValue p0 ≤ 65535) (v1 : digitsValue p1 ≤ 65535)
    (v2 : digitsValue p2 ≤ 65535) :
    ∃ v, ResVersion.ofString s_msFormat (p0 ++ ['.'] ++ p1 ++ ['.'] ++ p2) = .ok v
      ∧ v.IsValid = true
      ∧ v.GetMajor = digitsValue p0 ∧ v.GetMinor = digitsValue p1
      ∧ (s_msFormat = false → v.GetRevision = digitsValue p2 ∧ v.GetBuild = 0)
      ∧ (s_msFormat = true → v.GetBuild = digitsValue p2 ∧ v.GetRevision = 0) := by
  refine ⟨_, ofString_three_decimal s_msFormat p0 p1 p2 h0 h1 h2 (by omega) (by omega)
    (by omega), ?_⟩
  have e0 : digitsValue p0 % 65536 = digitsValue p0 := Nat.mod_eq_of_lt (by omega)
  have e1 : digitsValue p1 % 65536 = digitsValue p1 := Nat.mod_eq_of_lt (by omega)
  have e2 : digitsValue p2 % 65536 = digitsValue p2 := Nat.mod_eq_of_lt (by omega)
  cases s_msFormat <;>
    simp [ResVersion.swapIfMs, ResVersion.IsValid, ResVersion.GetMajor, ResVersion.GetMinor,
      ResVersion.GetRevision, ResVersion.GetBuild, e0, e1, e2]

/-- Witness for C13 (amended): the string `10.20.300` in platform mode. -/
theorem C13_three_components_amended_witness :
    (ResVersion.isDecimalNumber "10".toList = true
      ∧ ResVersion.isDecimalNumber "20".toList = true
      ∧ ResVersion.isDecimalNumber "300".toList = true
      ∧ digitsValue "10".toList ≤ 65535 ∧ digitsValue "20".toList ≤ 65535
      ∧ digitsValue "300".toList ≤ 65535)
    ∧ ∃ v, ResVersion.ofString true ("10".toList ++ ['.'] ++ "20".toList ++ ['.']
          ++ "300".toList) = .ok v
      ∧ v.IsValid = true
      ∧ v.GetMajor = digitsValue "10".toList ∧ v.GetMinor = digitsValue "20".toList
      ∧ (true = false → v.GetRevision = digitsValue "300".toList ∧ v.GetBuild = 0)
      ∧ (true = true → v.GetBuild = digitsValue "300".toList ∧ v.GetRevision = 0) :=
  ⟨by decide,
    C13_three_components_amended true "10".toList "20".toList "300".toList
      (by decide) (by decide) (by decide) (by decide) (by decide) (by decide)⟩

/-- C14 fails for setter calls: `SetMajor(2)` on a default-constructed Version leaves it
invalid, and it compares greater than the valid Version 1.0.0.0 in both modes. -/
theorem C14_invalid_not_greater_counterexample :
    (ResVersion.SetMajor ResVersion.default 2).IsValid = false
    ∧ ResVersion.gt true (ResVersion.SetMajor ResVersion.default 2) ⟨1, 0, 0, 0, true⟩ = true
    ∧ ResVersion.gt false (ResVersion.SetMajor ResVersion.default 2) ⟨1, 0, 0, 0, true⟩
        = true := by
  decide

/-- C14, as the code has it: an invalid Version that comes from default construction or
from a string parse, with no setter called on it, has all components 0 and is not greater
than any Version in either mode; the setters leave `IsValid()` as it is. -/
theorem C14_invalid_not_greater_amended (s_msFormat : Bool) (a b : ResVersion)
    (ha : a.IsValid = false)
    (hfrom : a = ResVersion.default ∨ ∃ m verStr, ResVersion.ofString m verStr = .ok a) :
    ResVersion.gt s_msFormat a b = false
    ∧ ∀ n, (ResVersion.SetMajor a n).IsValid = false ∧ (ResVersion.SetMinor a n).IsValid = false
        ∧ (ResVersion.SetRevision a n).IsValid = false
        ∧ (ResVersion.SetBuild a n).IsValid = false := by
  refine ⟨?_, fun n => ⟨ha, ha, ha, ha⟩⟩
  rcases hfrom with rfl | ⟨m, verStr, hparse⟩
  · exact gt_default s_msFormat b
  · rw [ofString_invalid_eq_default m verStr a hparse ha]
    exact gt_default s_msFormat b

/-- Witness for C14 (amended): the invalid Version parsed from `1.2`, against 0.0.0.1. -/
theorem C14_invalid_not_greater_amended_witness :
    ((⟨0, 0, 0, 0, false⟩ : ResVersion).IsValid = false
      ∧ ResVersion.ofString false "1.2".toList = .ok ⟨0, 0, 0, 0, false⟩)
    ∧ ResVersion.gt false ⟨0, 0, 0, 0, false⟩ ⟨0, 0, 0, 1, true⟩ = false :=
  ⟨⟨rfl, by decide⟩,
    (C14_invalid_not_greater_amended false ⟨0, 0, 0, 0, false⟩ ⟨0, 0, 0, 1, true⟩ rfl
      (Or.inr ⟨false, "1.2".toList, by decide⟩)).1⟩

/-- C15: for all 32-bit words `ms` and `ls`, the packed constructor yields a valid Version
with major `ms / 2^16` and minor `ms % 2^16`; in platform mode build is `ls / 2^16` and
revision `ls % 2^16`, in semantic mode revision is `ls / 2^16` and build `ls % 2^16`. -/
theorem C15_packed_constructor (s_msFormat : Bool) (ms ls : Nat)
    (hms : ms < 2 ^ 32) (hls : ls < 2 ^ 32) :
    (ResVersion.ofPacked s_msFormat ms ls).IsValid = true
    ∧ (ResVersion.ofPacked s_msFormat ms ls).GetMajor = ms / 2 ^ 16
    ∧ (ResVersion.ofPacked s_msFormat ms ls).GetMinor = ms % 2 ^ 16
    ∧ (s_msFormat = true →
        (ResVersion.ofPacked s_msFormat ms ls).GetBuild = ls / 2 ^ 16
        ∧ (ResVersion.ofPacked s_msFormat ms ls).GetRevision = ls % 2 ^ 16)
    ∧ (s_msFormat = false →
        (ResVersion.ofPacked s_msFormat ms ls).GetRevision = ls / 2 ^ 16
        ∧ (ResVersion.ofPacked s_msFormat ms ls).GetBuild = ls % 2 ^ 16) := by
  have e1 : ms / 65536 % 65536 = ms / 65536 := Nat.mod_eq_of_lt (by omega)
  have e2 : ls / 65536 % 65536 = ls / 65536 := Nat.mod_eq_of_lt (by omega)
  cases s_msFormat <;>
    simp [ResVersion.ofPacked, ResVersion.HIWORD, ResVersion.LOWORD, ResVersion.IsValid,
      ResVersion.GetMajor, ResVersion.GetMinor, ResVersion.GetRevision, ResVersion.GetBuild,
      e1, e2]

/-- Witness for C15: `ms = 0x00010002`, `ls = 0x00030004` in platform mode. -/
theorem C15_packed_constructor_witness :
    (65538 < 2 ^ 32 ∧ 196612 < 2 ^ 32)
    ∧ (ResVersion.ofPacked true 65538 196612).IsValid = true
    ∧ (ResVersion.ofPacked true 65538 196612).GetMajor = 65538 / 2 ^ 16
    ∧ (ResVersion.ofPacked true 65538 196612).GetMinor = 65538 % 2 ^ 16
    ∧ (true = true →
        (ResVersion.ofPacked true 65538 196612).GetBuild = 196612 / 2 ^ 16
        ∧ (ResVersion.ofPacked true 65538 196612).GetRevision = 196612 % 2 ^ 16)
    ∧ (true = false →
        (ResVersion.ofPacked true 65538 196612).GetRevision = 196612 / 2 ^ 16
        ∧ (ResVersion.ofPacked true 65538 196612).GetBuild = 196612 % 2 ^ 16) :=
  ⟨by decide, C15_packed_constructor true 65538 196612 (by decide) (by decide)⟩

/-- C16: for every directory `D` and file name `N` that does not begin with `_U_`, a
process named `N` in `D` takes the launcher branch (`replaceTempVersion` leaves the
object, and so `m_isTemp`, as it is) and `doUpdate` stages the new binary at `D\_U_N`;
a process named `_U_N` in `D` takes the staged branch (`m_isTemp` is set) and its target
path is exactly `D\N`, which is the launcher's full path when that is written `D\N`. -/
theorem C16_staging_paths (env : Env) (st : Statics) (D N : WString)
    (launcher staged : State) (h : List Event)
    (hname : isFileName N)
    (hN : List.isPrefixOf TEMP_PREFIX N = false)
    (hlauncher : launcher.m_exePath = D ∧ launcher.m_exeName = N)
    (hstaged : staged.m_exePath = D ∧ staged.m_exeName = stagedName N) :
    (replaceTempVersion env launcher h).self = launcher
    ∧ newExePath env launcher = D ++ L "\\" ++ stagedName N
    ∧ (downloadAnswer env st launcher h = true →
        (doUpdate env st launcher h).self.m_newExePath = D ++ L "\\" ++ stagedName N
        ∧ ∃ res, Event.copyFile (tempExePath env launcher) (D ++ L "\\" ++ stagedName N) true
            res ∈ (doUpdate env st launcher h).events)
    ∧ List.isPrefixOf TEMP_PREFIX staged.m_exeName = true
    ∧ (replaceTempVersion env staged h).self.m_isTemp = true
    ∧ realPath staged = D ++ L "\\" ++ N
    ∧ (launcher.m_fullExePath = D ++ L "\\" ++ N → realPath staged = launcher.m_fullExePath)
    ∧ filename (newExePath env launcher) = staged.m_exeName := by
  obtain ⟨hl1, hl2⟩ := hlauncher
  obtain ⟨hs1, hs2⟩ := hstaged
  have hnameL : isFileName launcher.m_exeName := by rw [hl2]; exact hname
  have hnew : newExePath env launcher = D ++ L "\\" ++ stagedName N := by
    rw [newExePath_eq env launcher hnameL, hl1, hl2]
  have hpre : List.isPrefixOf TEMP_PREFIX staged.m_exeName = true := by
    rw [hs2]; exact isPrefixOf_stagedName N
  have hreal : realPath staged = D ++ L "\\" ++ N := by
    unfold realPath
    rw [hs1, hs2, drop_stagedName]
  refine ⟨replaceTempVersion_launcher_self env launcher h (by rw [hl2]; exact hN), hnew, ?_,
    hpre, replaceTempVersion_staged_isTemp env staged h hpre, hreal,
    fun hfull => by rw [hreal, hfull], ?_⟩
  · intro hdl
    refine ⟨by rw [(doUpdate_paths env st launcher h).2 hdl, hnew], ?_⟩
    rw [← hnew]
    cases hcp : copyAnswer env st launcher h with
    | error e =>
      exact ⟨.error e, by rw [(doUpdate_copy_raised env st launcher h e hdl hcp).1]; simp⟩
    | ok copied =>
      cases copied with
      | false =>
        exact ⟨.ok false, by rw [(doUpdate_copy_false env st launcher h hdl hcp).1]; simp⟩
      | true =>
        cases hl : launchAnswer env st launcher h with
        | false =>
          exact ⟨.ok true,
            by rw [(doUpdate_launch_failed env st launcher h hdl hcp hl).1]; simp⟩
        | true =>
          exact ⟨.ok true,
            by rw [(doUpdate_all_succeeded env st launcher h hdl hcp hl).1]; simp⟩
  · rw [hnew, filename_of_dir_name _ _ (isFileName_stagedName _ hname), hs2]

/-- Witness for C16: the directory `C:\app` and the file name `tool.exe`. -/
theorem C16_staging_paths_witness :
    (isFileName (L "tool.exe") ∧ List.isPrefixOf TEMP_PREFIX (L "tool.exe") = false
      ∧ stagedName (L "tool.exe") = L "_U_tool.exe")
    ∧ (replaceTempVersion (acceptingEnv []) launcherState []).self = launcherState
    ∧ newExePath (acceptingEnv []) launcherState = L "C:\\app" ++ L "\\" ++ stagedName (L "tool.exe")
    ∧ (downloadAnswer (acceptingEnv []) {} launcherState [] = true →
        (doUpdate (acceptingEnv []) {} launcherState []).self.m_newExePath
          = L "C:\\app" ++ L "\\" ++ stagedName (L "tool.exe")
        ∧ ∃ res, Event.copyFile (tempExePath (acceptingEnv []) launcherState)
            (L "C:\\app" ++ L "\\" ++ stagedName (L "tool.exe")) true res
            ∈ (doUpdate (acceptingEnv []) {} launcherState []).events)
    ∧ List.isPrefixOf TEMP_PREFIX stagedState.m_exeName = true
    ∧ (replaceTempVersion (acceptingEnv []) stagedState []).self.m_isTemp = true
    ∧ realPath stagedState = L "C:\\app" ++ L "\\" ++ L "tool.exe"
    ∧ (launcherState.m_fullExePath = L "C:\\app" ++ L "\\" ++ L "tool.exe" →
        realPath stagedState = launcherState.m_fullExePath)
    ∧ filename (newExePath (acceptingEnv []) launcherState) = stagedState.m_exeName :=
  ⟨by decide,
    C16_staging_paths (acceptingEnv []) {} (L "C:\\app") (L "tool.exe") launcherState
      stagedState [] (by decide) (by decide) (by decide) (by decide)⟩

/-- C17: for all `a, b, c, d` in 0..65535 and in both modes, the Version the packed
constructor builds from `ms = a * 2^16 + b` and `ls = c * 2^16 + d` is the Version parsed
from the decimal string `a.b.c.d`, component by component and in validity, hence `==`
to it. -/
theorem C17_packed_equals_parsed (s_msFormat : Bool) (a b c d : Nat)
    (ha : a ≤ 65535) (hb : b ≤ 65535) (hc : c ≤ 65535) (hd : d ≤ 65535) :
    ∃ w, ResVersion.ofString s_msFormat
          (fmt a ++ ['.'] ++ fmt b ++ ['.'] ++ fmt c ++ ['.'] ++ fmt d) = .ok w
      ∧ ResVersion.eq s_msFormat
          (ResVersion.ofPacked s_msFormat (a * 2 ^ 16 + b) (c * 2 ^ 16 + d)) w = true
      ∧ w = ResVersion.ofPacked s_msFormat (a * 2 ^ 16 + b) (c * 2 ^ 16 + d) := by
  have wa := (fmt_spec a).2.2
  have wb := (fmt_spec b).2.2
  have wc := (fmt_spec c).2.2
  have wd := (fmt_spec d).2.2
  have hparse := ofString_four_decimal s_msFormat (fmt a) (fmt b) (fmt c) (fmt d)
    (fmt_isDecimalNumber a) (fmt_isDecimalNumber b) (fmt_isDecimalNumber c)
    (fmt_isDecimalNumber d) (by omega) (by omega) (by omega) (by omega)
  rw [wa, wb, wc, wd] at hparse
  have e1 : (a * 65536 + b) / 65536 % 65536 = a := by omega
  have e2 : (a * 65536 + b) % 65536 = b := by omega
  have e3 : (c * 65536 + d) / 65536 % 65536 = c := by omega
  have e4 : (c * 65536 + d) % 65536 = d := by omega
  have ea : a % 65536 = a := Nat.mod_eq_of_lt (by omega)
  have eb : b % 65536 = b := Nat.mod_eq_of_lt (by omega)
  have ec : c % 65536 = c := Nat.mod_eq_of_lt (by omega)
  have ed : d % 65536 = d := Nat.mod_eq_of_lt (by omega)
  refine ⟨_, hparse, ?_, ?_⟩ <;>
  cases s_msFormat <;>
    simp [ResVersion.ofPacked, ResVersion.HIWORD, ResVersion.LOWORD, ResVersion.swapIfMs,
      ResVersion.eq, e1, e2, e3, e4, ea, eb, ec, ed]

/-- Witness for C17: 1.2.3.4 in semantic mode. -/
theorem C17_packed_equals_parsed_witness :
    (1 ≤ 65535 ∧ 2 ≤ 65535 ∧ 3 ≤ 65535 ∧ 4 ≤ 65535)
    ∧ ∃ w, ResVersion.ofString false
          (fmt 1 ++ ['.'] ++ fmt 2 ++ ['.'] ++ fmt 3 ++ ['.'] ++ fmt 4) = .ok w
      ∧ ResVersion.eq false (ResVersion.ofPacked false (1 * 2 ^ 16 + 2) (3 * 2 ^ 16 + 4)) w
          = true
      ∧ w = ResVersion.ofPacked false (1 * 2 ^ 16 + 2) (3 * 2 ^ 16 + 4) :=
  ⟨by decide,
    C17_packed_equals_parsed false 1 2 3 4 (by decide) (by decide) (by decide) (by decide)⟩

/-- C18: for decimal numerals `p0 .. p3` of value at most `2^31 - 1`, the string
constructor yields for `p0.p1.p2` and for `p0.p1.p2.p3` a valid Version whose components
are the values modulo 65536: major from `p0`, minor from `p1`, the third component
(revision in semantic mode, build in platform mode) from `p2`, and the fourth (build in
semantic mode, revision in platform mode) from `p3`, or 0 when there is none. -/
theorem C18_components_wrap (s_msFormat : Bool) (p0 p1 p2 p3 : List Char)
    (h0 : ResVersion.isDecimalNumber p0 = true) (h1 : ResVersion.isDecimalNumber p1 = true)
    (h2 : ResVersion.isDecimalNumber p2 = true) (h3 : ResVersion.isDecimalNumber p3 = true)
    (v0 : digitsValue p0 ≤ 2 ^ 31 - 1) (v1 : digitsValue p1 ≤ 2 ^ 31 - 1)
    (v2 : digitsValue p2 ≤ 2 ^ 31 - 1) (v3 : digitsValue p3 ≤ 2 ^ 31 - 1) :
    (∃ v, ResVersion.ofString s_msFormat (p0 ++ ['.'] ++ p1 ++ ['.'] ++ p2) = .ok v
      ∧ v.IsValid = true
      ∧ v.GetMajor = digitsValue p0 % 65536 ∧ v.GetMinor = digitsValue p1 % 65536
      ∧ (if s_msFormat then v.GetBuild else v.GetRevision) = digitsValue p2 % 65536
      ∧ (if s_msFormat then v.GetRevision else v.GetBuild) = 0)
    ∧ (∃ v, ResVersion.ofString s_msFormat (p0 ++ ['.'] ++ p1 ++ ['.'] ++ p2 ++ ['.'] ++ p3)
          = .ok v
      ∧ v.IsValid = true
      ∧ v.GetMajor = digitsValue p0 % 65536 ∧ v.GetMinor = digitsValue p1 % 65536
      ∧ (if s_msFormat then v.GetBuild else v.GetRevision) = digitsValue p2 % 65536
      ∧ (if s_msFormat then v.GetRevision else v.GetBuild) = digitsValue p3 % 65536) := by
  have w0 : digitsValue p0 ≤ 2147483647 := by omega
  have w1 : digitsValue p1 ≤ 2147483647 := by omega
  have w2 : digitsValue p2 ≤ 2147483647 := by omega
  have w3 : digitsValue p3 ≤ 2147483647 := by omega
  refine ⟨⟨_, ofString_three_decimal s_msFormat p0 p1 p2 h0 h1 h2 w0 w1 w2, ?_⟩,
    ⟨_, ofString_four_decimal s_msFormat p0 p1 p2 p3 h0 h1 h2 h3 w0 w1 w2 w3, ?_⟩⟩ <;>
  cases s_msFormat <;>
    simp [ResVersion.swapIfMs, ResVersion.IsValid, ResVersion.GetMajor, ResVersion.GetMinor,
      ResVersion.GetRevision, ResVersion.GetBuild]

/-- Witness for C18, the example of the claim: `1.65536.0` parses to a valid Version with
minor `65536 % 65536 = 0`, which is `==` to the Version parsed from `1.0.0` and not
greater than the one parsed from `1.1.0`. -/
theorem C18_components_wrap_witness :
    (∃ v, ResVersion.ofString false ("1".toList ++ ['.'] ++ "65536".toList ++ ['.']
          ++ "0".toList) = .ok v
      ∧ v.IsValid = true
      ∧ v.GetMajor = digitsValue "1".toList % 65536
      ∧ v.GetMinor = digitsValue "65536".toList % 65536
      ∧ (if false = true then v.GetBuild else v.GetRevision) = digitsValue "0".toList % 65536
      ∧ (if false = true then v.GetRevision else v.GetBuild) = 0)
    ∧ digitsValue "65536".toList % 65536 = 0
    ∧ ResVersion.ofString false "1.65536.0".toList = .ok ⟨1, 0, 0, 0, true⟩
    ∧ ResVersion.ofString false "1.0.0".toList = .ok ⟨1, 0, 0, 0, true⟩
    ∧ ResVersion.ofString false "1.1.0".toList = .ok ⟨1, 1, 0, 0, true⟩
    ∧ ResVersion.eq false ⟨1, 0, 0, 0, true⟩ ⟨1, 0, 0, 0, true⟩ = true
    ∧ ResVersion.gt false ⟨1, 0, 0, 0, true⟩ ⟨1, 1, 0, 0, true⟩ = false :=
  ⟨(C18_components_wrap false "1".toList "65536".toList "0".toList "0".toList
      (by decide) (by decide) (by decide) (by decide)
      (by decide) (by decide) (by decide) (by decide)).1,
    by decide, by decide, by decide, by decide, by decide, by decide⟩

end selfUpdater
